import Mathlib

/-!
# go-jsonrpc: registration and dispatch

A shallow embedding of `server.go`: the registry built by `Regiter`, the output-shape
validation of `processOutput`, the parameter box `param`, and the dispatcher
`ServeHTTP` with its helper `rpcError`.

Modelling conventions.

* `reflect.Type` is the inductive `GoType`; `reflect.Value` is `Value` (the zero Value, or a
  static type together with the Go value it holds); what an `interface{}` holds is a `GoValue`.
* A panic is an explicit outcome: functions that can panic return `Except String _`, or a pair
  whose second component is the panic message.
* Everything `ServeHTTP` does that can be observed is appended to a list of `Event`s, in
  program order: registry lookups, parameter decodes, the invocation of the operation,
  `WriteHeader` calls and encoded response envelopes.
* `encoding/json` is outside the repository. Decoding the request envelope is an input of
  `ServeHTTP` (the fields left in `req` and the error returned); decoding one parameter is the
  `decode` field of `Env`. Go `int` arithmetic is on `Int`: the quantities involved are slice
  lengths and small indices.
-/

namespace JsonRpc

/-! ## Go types and values -/

/-- The Go types the dispatcher can meet through `reflect.Type`. `error` and `context` are the
interface types `error` and `context.Context`, `iface` is `interface{}`; `errImpl` and `ctxImpl`
stand for concrete types implementing them; `reflectValue` is the struct type `reflect.Value`. -/
inductive GoType where
  | int
  | string
  | bool
  | error
  | context
  | iface
  | errImpl
  | ctxImpl
  | reflectValue
  | struct (name : String)
  | ptr (elem : GoType)
  deriving DecidableEq, Repr

/-- The kinds `Regiter` distinguishes (`reflect.Kind`). -/
inductive Kind where
  | Ptr
  | Struct
  | Interface
  | Other
  deriving DecidableEq, Repr

/-- The method `Kind` of `reflect.Type`. -/
def GoType.Kind : GoType → Kind
  | .ptr _ => .Ptr
  | .struct _ => .Struct
  | .reflectValue => .Struct
  | .error => .Interface
  | .context => .Interface
  | .iface => .Interface
  | _ => .Other

/-- The variable `contextType`: `reflect.TypeOf(new(context.Context)).Elem()`. -/
def contextType : GoType := GoType.context

/-- The variable `errorType`: `reflect.TypeOf(new(error)).Elem()`. -/
def errorType : GoType := GoType.error

/-- What an `interface{}` can hold. `nil` is the nil interface; `errorString msg` is a non-nil
error whose `Error()` is `msg`; `ptr elem target` is a non-nil pointer to a variable of type
`elem` holding `target`, `nilPtr elem` the nil pointer of that type; `reflectValue typ v` is a
valid `reflect.Value` struct of static type `typ` holding `v`, boxed in an interface, and
`reflectZero` the zero `reflect.Value` struct. -/
inductive GoValue where
  | nil
  | int (n : Int)
  | string (s : String)
  | bool (b : Bool)
  | errorString (msg : String)
  | ctx (tag : Nat)
  | struct (name : String)
  | ptr (elem : GoType) (target : GoValue)
  | nilPtr (elem : GoType)
  | reflectValue (typ : GoType) (v : GoValue)
  | reflectZero
  deriving DecidableEq, Repr

/-- A `reflect.Value`: the zero Value, or a static type and the value held. -/
inductive Value where
  | zero
  | mk (typ : GoType) (v : GoValue)
  deriving DecidableEq, Repr

/-- The method `Interface` of `reflect.Value`: the value held; it panics on the zero Value. -/
def Value.Interface : Value → Except String GoValue
  | .zero => .error "reflect: call of reflect.Value.Interface on zero Value"
  | .mk _ v => .ok v

/-- Boxing a `reflect.Value` struct itself into an `interface{}`, as the assignment
`resp.Result = callResult[handler.valOut]` does. -/
def Value.box : Value → GoValue
  | .zero => .reflectZero
  | .mk t v => .reflectValue t v

/-- The dynamic type of a Go value (`none` for the nil interface). -/
def GoValue.typeOf : GoValue → Option GoType
  | .nil => none
  | .int _ => some .int
  | .string _ => some .string
  | .bool _ => some .bool
  | .errorString _ => some .errImpl
  | .ctx _ => some .ctxImpl
  | .struct name => some (.struct name)
  | .ptr elem _ => some (.ptr elem)
  | .nilPtr elem => some (.ptr elem)
  | .reflectValue _ _ => some .reflectValue
  | .reflectZero => some .reflectValue

/-- The function `reflect.ValueOf`: a Value of the dynamic type, the zero Value for nil. -/
def ValueOf (x : GoValue) : Value :=
  match x.typeOf with
  | none => .zero
  | some t => .mk t x

/-- The function `reflect.New` followed by a decode that left `v` in the new variable: a Value of
type pointer-to-`t` pointing at `v`. -/
def New (t : GoType) (v : GoValue) : Value :=
  .mk (.ptr t) (.ptr t v)

/-- The type assertion `err.(error)` followed by `Error()`: the description of an error value,
`none` when the value does not implement `error` (the assertion panics). -/
def GoValue.Error : GoValue → Option String
  | .errorString msg => some msg
  | _ => none

/-- Whether a value of type `v` may be passed where `t` is declared (`Type.AssignableTo`):
identical types, or `t` an interface that `v` implements. -/
def assignable (v t : GoType) : Bool :=
  v == t ||
    match t, v with
    | .iface, _ => true
    | .error, .errImpl => true
    | .context, .ctxImpl => true
    | _, _ => false

/-- A function type: `In(i)` and `Out(i)` are the entries of `ins` and `outs`; for a method
obtained from `Type.Method` the receiver is `ins[0]`. -/
structure FuncType where
  ins : List GoType
  outs : List GoType
  deriving DecidableEq, Repr

/-- The method `NumIn` of a function type. -/
def FuncType.NumIn (ft : FuncType) : Int := ft.ins.length

/-- The method `NumOut` of a function type. -/
def FuncType.NumOut (ft : FuncType) : Int := ft.outs.length

/-- Indexing a slice with a Go `int`: `none` is the out-of-range panic. -/
def idx {α : Type} (l : List α) (i : Int) : Option α :=
  if i < 0 then none else l.get? i.toNat

/-- The assignment `l[i] = a` with a Go `int` index: `none` is the out-of-range panic. -/
def setIdx {α : Type} (l : List α) (i : Int) (a : α) : Option (List α) :=
  if i < 0 then none else if i.toNat < l.length then some (l.set i.toNat a) else none

/-- The methods `In(i)` and `Out(i)` panic when `i` is out of range. -/
def FuncType.In (ft : FuncType) (i : Int) : Except String GoType :=
  match idx ft.ins i with
  | none => .error "reflect: Func index out of bounds"
  | some t => .ok t

/-- The method `Out(i)` of a function type. -/
def FuncType.Out (ft : FuncType) (i : Int) : Except String GoType :=
  match idx ft.outs i with
  | none => .error "reflect: Func index out of bounds"
  | some t => .ok t

/-- A function value (`reflect.Value` of kind Func): its type, and what it returns on given
arguments. Only operations that return are modelled, as functions of their arguments. -/
structure GoFunc where
  typ : FuncType
  body : List GoValue → List GoValue

/-- Checking the arguments of `Value.Call` against the declared inputs, in order: a zero Value or
a Value whose type is not assignable to the declared one panics. -/
def checkArgs : List GoType → List Value → Except String (List GoValue)
  | [], _ => .ok []
  | _ :: _, [] => .error "reflect: Call with too few input arguments"
  | _ :: _, Value.zero :: _ => .error "reflect: Call using zero Value argument"
  | t :: ts, Value.mk vt v :: as =>
    if assignable vt t then
      match checkArgs ts as with
      | .error m => .error m
      | .ok vs => .ok (v :: vs)
    else .error "reflect: Call using value of the wrong type"

/-- The results of a call as Values: one per declared output, of the declared type. -/
def wrapOuts : List GoType → List GoValue → List Value
  | [], _ => []
  | t :: ts, vs => Value.mk t (vs.headD GoValue.nil) :: wrapOuts ts vs.tail

/-- The method `Call` of `reflect.Value` on a function value: it panics unless the arguments
match the declared inputs in number and type, and returns one Value per declared output. -/
def Call (f : GoFunc) (args : List Value) : Except String (List Value) :=
  if args.length ≠ f.typ.ins.length then
    .error "reflect: Call with wrong number of input arguments"
  else
    match checkArgs f.typ.ins args with
    | .error m => .error m
    | .ok vs => .ok (wrapOuts f.typ.outs (f.body vs))

/-! ## The registry -/

/-- The constants `rpcParseError`, `rpcMethodNotFound` and `rpcInvalidParams`. -/
def rpcParseError : Int := -32700

/-- The constant `rpcMethodNotFound`. -/
def rpcMethodNotFound : Int := -32601

/-- The constant `rpcInvalidParams`, as declared: `32602`. -/
def rpcInvalidParams : Int := 32602

/-- The struct `rpcHandler`. -/
structure rpcHandler where
  paramsReceiver : List GoType
  nParams : Int
  reciver : Value
  handleFunc : GoFunc
  hasCtx : Int
  errOut : Int
  valOut : Int

/-- The struct `RPCServer`: the map `methods`, as a lookup function. -/
structure RPCServer where
  methods : String → Option rpcHandler

/-- The function `NewServer`: the empty registry. -/
def NewServer : RPCServer := { methods := fun _ => none }

/-- The function `processOutput`: the indices of the value output and of the error output
(`-1` for none) and the number of outputs; `.error` is a panic. -/
def processOutput (funcType : FuncType) : Except String (Int × Int × Int) :=
  let valOut : Int := -1
  let errOut : Int := -1
  let n := funcType.NumOut
  if n = 0 then
    .ok (valOut, errOut, n)
  else if n = 1 then
    match funcType.Out 0 with
    | .error m => .error m
    | .ok t => if t = errorType then .ok (valOut, 0, n) else .ok (0, errOut, n)
  else if n = 2 then
    match funcType.Out 1 with
    | .error m => .error m
    | .ok t =>
      if t ≠ errorType then .error "expected error as second return value" else .ok (0, 1, n)
  else
    .error "too many error values"

/-- One exposed method of a handler, as `Type.Method(i)` reports it: its name, the declared
parameters after the receiver, the declared outputs, and its code. -/
structure Method where
  Name : String
  params : List GoType
  outs : List GoType
  body : List GoValue → List GoValue

/-- The field `Type` of a `reflect.Method` obtained from a type: the receiver is the first
input. -/
def Method.Type (m : Method) (recv : GoType) : FuncType :=
  { ins := recv :: m.params, outs := m.outs }

/-- The field `Func` of a `reflect.Method`: the function with the receiver as first argument. -/
def Method.Func (m : Method) (recv : GoType) : GoFunc :=
  { typ := m.Type recv, body := m.body }

/-- A non-nil value passed as the `handler interface{}` argument: its dynamic type, the value,
and the exposed methods of that type in the order `Method(i)` enumerates them.
`reflect.ValueOf(handler)` is the Value of type `typ` holding `val`. -/
structure Handler where
  typ : GoType
  val : GoValue
  methods : List Method

/-- The inner loop of `Regiter`, `for i := 0; i < ins; i++ { recvs[i] = funcType.In(i) }` over a
slice made with length `ins`: the list of `funcType.In(0)`, ..., `funcType.In(ins - 1)`. -/
def fillRecvs (funcType : FuncType) : Nat → Except String (List GoType)
  | 0 => .ok []
  | n + 1 =>
    match fillRecvs funcType n with
    | .error m => .error m
    | .ok recvs =>
      match funcType.In (n : Int) with
      | .error m => .error m
      | .ok t => .ok (recvs ++ [t])

/-- The test `funcType.NumIn() >= 2 && funcType.In(1) == contextType` setting `hasCtx`. -/
def detectCtx (funcType : FuncType) : Except String Int :=
  if funcType.NumIn ≥ 2 then
    match funcType.In 1 with
    | .error m => .error m
    | .ok t => if t = contextType then .ok 1 else .ok 0
  else .ok 0

/-- The body of the outer loop of `Regiter` for one method: the descriptor it builds, or a
panic. -/
def describe (h : Handler) (method : Method) : Except String rpcHandler :=
  let funcType := method.Type h.typ
  match detectCtx funcType with
  | .error m => .error m
  | .ok hasCtx =>
    let ins := funcType.NumIn - 1 - hasCtx
    if ins < 0 then .error "makeslice: len out of range"
    else
      match fillRecvs funcType ins.toNat with
      | .error m => .error m
      | .ok recvs =>
        match processOutput funcType with
        | .error m => .error m
        | .ok (valOut, errOut, _) =>
          .ok { paramsReceiver := recvs
                nParams := ins
                reciver := Value.mk h.typ h.val
                handleFunc := method.Func h.typ
                hasCtx := hasCtx
                errOut := errOut
                valOut := valOut }

/-- The assignment `s.methods[key] = d`. -/
def RPCServer.store (s : RPCServer) (key : String) (d : rpcHandler) : RPCServer :=
  { methods := fun k => if k = key then some d else s.methods k }

/-- The outer loop of `Regiter` over the exposed methods: each descriptor is stored under
`namespace + "." + method.Name`; a panic stops the loop and keeps what was stored before it. -/
def registerMethods (s : RPCServer) (namespace_ : String) (h : Handler) :
    List Method → RPCServer × Option String
  | [] => (s, none)
  | method :: rest =>
    match describe h method with
    | .error m => (s, some m)
    | .ok d => registerMethods (s.store (namespace_ ++ "." ++ method.Name) d) namespace_ h rest

/-- The method `Regiter`. The argument is `none` for a nil interface. The result is the registry
after the call and the panic message if the call panicked. -/
def Regiter (s : RPCServer) (namespace_ : String) (handler : Option Handler) :
    RPCServer × Option String :=
  match handler with
  | none => (s, some "invalid memory address or nil pointer dereference")
  | some h =>
    match h.typ with
    | .ptr elem =>
      if elem.Kind ≠ Kind.Struct then (s, some "handler should be a struct")
      else registerMethods s namespace_ h h.methods
    | _ => (s, some "handler should be a pointer")

/-! ## Envelopes and the parameter box -/

/-- One byte of a `[]byte`. -/
abbrev Byte := Fin 256

/-- The struct `param`: the raw bytes captured at envelope-parse time and the typed value. -/
structure param where
  data : List Byte
  val : Value
  deriving DecidableEq, Repr

/-- The built-in `copy(dst, src)`: the first `min (len dst) (len src)` bytes of `dst` are
overwritten with those of `src`. -/
def copy (dst src : List Byte) : List Byte :=
  src.take dst.length ++ dst.drop src.length

/-- The method `param.UnmarshalJSON`: the box after the call and the error returned (`none` for
nil). -/
def param.UnmarshalJSON (p : param) (d : List Byte) : param × Option String :=
  let raw : List Byte := List.replicate d.length 0
  let raw := copy raw d
  ({ p with data := raw }, none)

/-- The struct `request`; `ID` is `none` for a nil pointer (a notification). -/
structure request where
  Jsonrpc : String
  ID : Option Int
  Method : String
  Params : List param
  deriving DecidableEq, Repr

/-- The struct `respErr`. -/
structure respErr where
  Code : Int
  Message : String
  deriving DecidableEq, Repr

/-- The struct `response`. `Result` is an `interface{}`: `GoValue.nil` is the nil interface,
which `omitempty` leaves out of the encoding; `Error` is `none` for a nil pointer, left out
likewise. -/
structure response where
  Jsonrpc : String
  ID : Int
  Result : GoValue
  Error : Option respErr
  deriving DecidableEq, Repr

/-- What the dispatcher takes from outside the file: the constant `Version`, declared elsewhere
in the package, and the decoder of `encoding/json` for one parameter,
`json.NewDecoder(bytes.NewReader(data)).Decode(rp.Interface())` with `rp = reflect.New(t)`:
the value left in the new variable, or the description of the error returned. -/
structure Env where
  Version : String
  decode : GoType → List Byte → Except String GoValue

/-- The observable actions of `ServeHTTP`, in program order. `call args results` is
`handler.handleFunc.Call(callParams)` (`results = none`: the call panicked); `write resp` is a
response envelope handed to `json.NewEncoder(w).Encode`, which encodes every `response` this
file builds (an `int64`, strings, and a result that is nil or a `reflect.Value` struct). -/
inductive Event where
  | lookup (method : String)
  | decode (i : Nat) (t : GoType) (data : List Byte)
  | call (args : List Value) (results : Option (List Value))
  | writeHeader (status : Int)
  | write (resp : response)
  deriving DecidableEq, Repr

/-- The outcome of one `ServeHTTP` call: what it did, and the panic message if it panicked. -/
structure Run where
  trace : List Event
  panicked : Option String
  deriving DecidableEq, Repr

/-- The response envelopes written, in order. -/
def responses : List Event → List response
  | [] => []
  | Event.write resp :: es => resp :: responses es
  | _ :: es => responses es

/-- The invocations of an operation, in order: the argument vectors passed to `Call`. -/
def invocations : List Event → List (List Value)
  | [] => []
  | Event.call args _ :: es => args :: invocations es
  | _ :: es => invocations es

/-- The method names looked up in the registry, in order. -/
def lookups : List Event → List String
  | [] => []
  | Event.lookup m :: es => m :: lookups es
  | _ :: es => lookups es

/-- The positions of the parameter payloads decoded, in order. -/
def decoded : List Event → List Nat
  | [] => []
  | Event.decode i _ _ :: es => i :: decoded es
  | _ :: es => decoded es

/-! ## The dispatcher -/

/-- The method `rpcError`, appending to the actions `w` done so far. -/
def rpcError (E : Env) (w : List Event) (r : request) (code : Int) (err : String) : List Event :=
  let w := w ++ [Event.writeHeader 500]
  match r.ID with
  | none => w
  | some id =>
    let resp : response :=
      { Jsonrpc := E.Version
        ID := id
        Result := GoValue.nil
        Error := some { Code := code, Message := err } }
    w ++ [Event.write resp]

/-- The built-in `make([]reflect.Value, n)`: `n` zero Values; a negative length panics. -/
def make (n : Int) : Except String (List Value) :=
  if n < 0 then .error "makeslice: len out of range"
  else .ok (List.replicate n.toNat Value.zero)

/-- Lines 98 to 102 of `ServeHTTP`: the argument vector with the receiver and, when
`hasCtx == 1`, the context of the inbound call. -/
def assemble (handler : rpcHandler) (ctx : GoValue) : Except String (List Value) :=
  match make (handler.nParams + handler.hasCtx + 1) with
  | .error m => .error m
  | .ok callParams =>
    match setIdx callParams 0 handler.reciver with
    | none => .error "index out of range"
    | some callParams =>
      if handler.hasCtx = 1 then
        match setIdx callParams 1 (ValueOf ctx) with
        | none => .error "index out of range"
        | some callParams => .ok callParams
      else .ok callParams

/-- Where control is after a block of `ServeHTTP`: it goes on with a value, the function has
returned, or it has panicked; each with the actions done so far. -/
inductive Flow (α : Type) where
  | next (a : α) (w : List Event)
  | ret (w : List Event)
  | panic (msg : String) (w : List Event)

/-- The loop `for i := 0; i < handler.nParams; i++` of `ServeHTTP`, with `k` iterations left
from position `i`. -/
def decodeParams (E : Env) (handler : rpcHandler) (req : request) :
    Nat → Nat → List Value → List Event → Flow (List Value)
  | 0, _, callParams, w => Flow.next callParams w
  | k + 1, i, callParams, w =>
    match handler.paramsReceiver.get? i with
    | none => Flow.panic "index out of range" w
    | some t =>
      match req.Params.get? i with
      | none => Flow.panic "index out of range" w
      | some p =>
        let w := w ++ [Event.decode i t p.data]
        match E.decode t p.data with
        | .error err => Flow.ret (rpcError E w req rpcParseError err)
        | .ok v =>
          match setIdx callParams ((i : Int) + 1 + handler.hasCtx) (New t v) with
          | none => Flow.panic "index out of range" w
          | some callParams => decodeParams E handler req k (i + 1) callParams w

/-- Lines 119 to 136 of `ServeHTTP`: the response built from the results of the call. -/
def buildResponse (E : Env) (handler : rpcHandler) (id : Int) (callResult : List Value) :
    Except String response :=
  let resp : response :=
    { Jsonrpc := E.Version, ID := id, Result := GoValue.nil, Error := none }
  let withErr : Except String response :=
    if handler.errOut ≠ -1 then
      match idx callResult handler.errOut with
      | none => .error "index out of range"
      | some rv =>
        match rv.Interface with
        | .error m => .error m
        | .ok err =>
          if err ≠ GoValue.nil then
            match err.Error with
            | none => .error "interface conversion: interface is not error"
            | some msg => .ok { resp with Error := some { Code := 1, Message := msg } }
          else .ok resp
    else .ok resp
  match withErr with
  | .error m => .error m
  | .ok resp =>
    if handler.valOut ≠ -1 then
      match idx callResult handler.valOut with
      | none => .error "index out of range"
      | some rv => .ok { resp with Result := rv.box }
    else .ok resp

/-- The method `ServeHTTP`. `ctx` is `r.Context()`; `req` and `derr` are what
`json.NewDecoder(r.Body).Decode(&req)` left in `req` and the error it returned (`none` for
nil). -/
def ServeHTTP (E : Env) (s : RPCServer) (ctx : GoValue) (req : request)
    (derr : Option String) : Run :=
  let w : List Event :=
    match derr with
    | some err => rpcError E [] req rpcParseError err
    | none => []
  let w := w ++ [Event.lookup req.Method]
  match s.methods req.Method with
  | none => { trace := rpcError E w req rpcMethodNotFound "Method not found", panicked := none }
  | some handler =>
    if (req.Params.length : Int) ≠ handler.nParams then
      { trace := rpcError E w req rpcInvalidParams "wrong params count", panicked := none }
    else
      match assemble handler ctx with
      | .error m => { trace := w, panicked := some m }
      | .ok callParams =>
        match decodeParams E handler req handler.nParams.toNat 0 callParams w with
        | Flow.panic m w => { trace := w, panicked := some m }
        | Flow.ret w => { trace := w, panicked := none }
        | Flow.next callParams w =>
          match Call handler.handleFunc callParams with
          | .error m => { trace := w ++ [Event.call callParams none], panicked := some m }
          | .ok callResult =>
            let w := w ++ [Event.call callParams (some callResult)]
            match req.ID with
            | none => { trace := w, panicked := none }
            | some id =>
              match buildResponse E handler id callResult with
              | .error m => { trace := w, panicked := some m }
              | .ok resp => { trace := w ++ [Event.write resp], panicked := none }

/-! ## A decoder and a handler to run the dispatcher on -/

/-- The value of a run of ASCII digits, `none` if another byte occurs. -/
def parseDigits : List Byte → Nat → Option Nat
  | [], acc => some acc
  | b :: bs, acc =>
    if 48 ≤ b.val ∧ b.val ≤ 57 then parseDigits bs (acc * 10 + (b.val - 48)) else none

/-- The integer written by a JSON number literal without fraction or exponent. -/
def parseInt : List Byte → Option Int
  | [] => none
  | b :: bs =>
    if b.val = 45 then
      if bs = [] then none else (parseDigits bs 0).map (fun n => -(n : Int))
    else (parseDigits (b :: bs) 0).map (fun n => (n : Int))

/-- The bytes of the JSON literal `null`. -/
def jsonNull : List Byte := [110, 117, 108, 108]

/-- A fragment of the `encoding/json` decoder, for payloads that are well-formed JSON values
(the envelope decoder has scanned them): `null` leaves the zero value; an integer literal in
range decodes into `int`; an object decodes into a struct (fields are not modelled); a pointer
is allocated and its target decoded; every other combination of these payloads and targets is
the type error `encoding/json` reports. Targets other than `int`, structs and pointers to them
are outside the fragment and reported as errors. -/
def sampleDecode : GoType → List Byte → Except String GoValue
  | .int, d =>
    if d = jsonNull then .ok (.int 0)
    else
      match parseInt d with
      | some n =>
        if -9223372036854775808 ≤ n ∧ n ≤ 9223372036854775807 then .ok (.int n)
        else .error "json: cannot unmarshal number into Go value of type int"
      | none => .error "json: cannot unmarshal into Go value of type int"
  | .struct name, d =>
    if d = jsonNull then .ok (.struct name)
    else if d.head? = some 123 then .ok (.struct name)
    else .error ("json: cannot unmarshal into Go value of type " ++ name)
  | .ptr elem, d =>
    if d = jsonNull then .ok (.nilPtr elem)
    else
      match sampleDecode elem d with
      | .error m => .error m
      | .ok v => .ok (.ptr elem v)
  | _, _ => .error "json: target type outside the modelled fragment"

/-- The environment used in the examples. -/
def sampleEnv : Env := { Version := "2.0", decode := sampleDecode }

/-- The code of `func (c *Calc) Add(a, b int) (int, error)`, returning `(a + b, nil)`. -/
def addBody : List GoValue → List GoValue
  | [_, GoValue.int a, GoValue.int b] => [GoValue.int (a + b), GoValue.nil]
  | _ => [GoValue.int 0, GoValue.nil]

/-- A handler `*Calc` with four exposed methods:
`Add(a, b int) (int, error)` returning `(a + b, nil)`;
`Fail() error` returning the error "boom";
`Five() (int, error)` returning `(5, nil)`;
`Oops() (int, error)` returning `(0, err)` with `err` the error "boom". -/
def calcHandler : Handler :=
  { typ := GoType.ptr (GoType.struct "Calc")
    val := GoValue.ptr (GoType.struct "Calc") (GoValue.struct "Calc")
    methods :=
      [ { Name := "Add", params := [GoType.int, GoType.int]
          outs := [GoType.int, GoType.error], body := addBody },
        { Name := "Fail", params := [], outs := [GoType.error]
          body := fun _ => [GoValue.errorString "boom"] },
        { Name := "Five", params := [], outs := [GoType.int, GoType.error]
          body := fun _ => [GoValue.int 5, GoValue.nil] },
        { Name := "Oops", params := [], outs := [GoType.int, GoType.error]
          body := fun _ => [GoValue.int 0, GoValue.errorString "boom"] } ] }

/-- The registry after `NewServer()` and `Regiter("calc", &Calc{})`. -/
def calcServer : RPCServer := (Regiter NewServer "calc" (some calcHandler)).1

/-- The context of the inbound call in the examples. -/
def bg : GoValue := GoValue.ctx 0

/-- The request `calc.Add` with params `[2, 3]` and id 1. -/
def addRequest : request :=
  { Jsonrpc := "2.0", ID := some 1, Method := "calc.Add"
    Params := [{ data := [50], val := Value.zero }, { data := [51], val := Value.zero }] }

/-- A request without params for the method `m`, with the id `id`. -/
def bareRequest (m : String) (id : Option Int) : request :=
  { Jsonrpc := "2.0", ID := id, Method := m, Params := [] }

/-! ## Reachable registries and well-formed descriptors -/

/-- The registries a program can hold: `NewServer()` followed by any number of `Regiter` calls
(a call that panicked leaves what it had stored before the panic). -/
inductive Reachable : RPCServer → Prop where
  | new : Reachable NewServer
  | regiter (s : RPCServer) (namespace_ : String) (handler : Option Handler) :
      Reachable s → Reachable (Regiter s namespace_ handler).1

/-- Well-formedness of a descriptor. -/
structure rpcHandler.WF (h : rpcHandler) : Prop where
  hasCtx : h.hasCtx = 0 ∨ h.hasCtx = 1
  nParams : 0 ≤ h.nParams
  recvLen : (h.paramsReceiver.length : Int) = h.nParams
  numIn : h.nParams + h.hasCtx + 1 = h.handleFunc.typ.NumIn
  valOut : h.valOut = -1 ∨ (0 ≤ h.valOut ∧ h.valOut < h.handleFunc.typ.NumOut)
  errOut : h.errOut = -1 ∨ (0 ≤ h.errOut ∧ h.errOut < h.handleFunc.typ.NumOut)
  distinct : h.valOut = h.errOut → h.valOut = -1 ∧ h.errOut = -1

/-- The actions in `ds` are parameter decodes at positions from `lo` up to `hi`
(excluded). -/
def OnlyDecodes (ds : List Event) (lo hi : Nat) : Prop :=
  ∀ e ∈ ds, ∃ j t d, e = Event.decode j t d ∧ lo ≤ j ∧ j < hi

/-- The actions done when control leaves a block. -/
def Flow.trace {α : Type} : Flow α → List Event
  | Flow.next _ w => w
  | Flow.ret w => w
  | Flow.panic _ w => w

/-- An output shape `processOutput` rejects: three or more outputs, or two outputs whose second
is not the error type. -/
def BadOutputs (outs : List GoType) : Prop :=
  3 ≤ outs.length ∨ (outs.length = 2 ∧ outs.get? 1 ≠ some errorType)

/-- What the decode loop started at position `lo` with the actions `w` can have done when control
leaves it: parameter decodes at positions from `lo` up to `hi` (excluded), followed, when it
made `ServeHTTP` return, by one `rpcError` call reporting a parse error. -/
def DecodeOutcome (E : Env) (req : request) (w : List Event) (lo hi : Nat) :
    Flow (List Value) → Prop
  | Flow.next _ w1 => ∃ ds, w1 = w ++ ds ∧ OnlyDecodes ds lo hi
  | Flow.panic _ w1 => ∃ ds, w1 = w ++ ds ∧ OnlyDecodes ds lo hi
  | Flow.ret w1 =>
    ∃ ds msg, w1 = rpcError E (w ++ ds) req rpcParseError msg ∧ OnlyDecodes ds lo hi

/-- The actions of `ServeHTTP` up to and including the registry lookup: the parse error reported
when decoding the envelope failed, then the lookup. -/
def preamble (E : Env) (req : request) (derr : Option String) : List Event :=
  (match derr with
   | some err => rpcError E [] req rpcParseError err
   | none => []) ++ [Event.lookup req.Method]

/-- The code of `func (b *Box) Get(ctx context.Context, key int) (int, error)`, returning
`(key, nil)`. -/
def getBody : List GoValue → List GoValue
  | [_, _, GoValue.int key] => [GoValue.int key, GoValue.nil]
  | _ => [GoValue.int 0, GoValue.nil]

/-- A handler `*Box` with two exposed methods:
`Get(ctx context.Context, key int) (int, error)` returning `(key, nil)`;
`Merge(other *Box) error` returning nil. -/
def boxHandler : Handler :=
  { typ := GoType.ptr (GoType.struct "Box")
    val := GoValue.ptr (GoType.struct "Box") (GoValue.struct "Box")
    methods :=
      [ { Name := "Get", params := [GoType.context, GoType.int]
          outs := [GoType.int, GoType.error], body := getBody },
        { Name := "Merge", params := [GoType.ptr (GoType.struct "Box")]
          outs := [GoType.error], body := fun _ => [GoValue.nil] } ] }

/-- The registry after `NewServer()` and `Regiter("box", &Box{})`. -/
def boxServer : RPCServer := (Regiter NewServer "box" (some boxHandler)).1

/-- The request `box.Merge` with id 1 and one param, the empty JSON object (the bytes 123 and
125). -/
def mergeRequest : request :=
  { Jsonrpc := "2.0", ID := some 1, Method := "box.Merge"
    Params := [{ data := [123, 125], val := Value.zero }] }

/-- The status codes passed to `WriteHeader`, in order. -/
def statuses : List Event → List Int
  | [] => []
  | Event.writeHeader status :: es => status :: statuses es
  | _ :: es => statuses es

/-- The response envelopes written, each with the transport status it is written under, as
`http.ResponseWriter` behaves: the first `WriteHeader` call fixes the status, later ones are
ignored, and a write with no status fixed yet fixes the status 200. The first argument is the
status fixed so far. -/
def writtenUnder : Option Int → List Event → List (Int × response)
  | _, [] => []
  | none, Event.writeHeader status :: es => writtenUnder (some status) es
  | some st, Event.writeHeader _ :: es => writtenUnder (some st) es
  | none, Event.write resp :: es => (200, resp) :: writtenUnder (some 200) es
  | some st, Event.write resp :: es => (st, resp) :: writtenUnder (some st) es
  | st, _ :: es => writtenUnder st es

/-- The actions in `ds` are decodes of the payloads of `req`: each decodes the bytes held by the
box at its position, into the type the descriptor holds at that position, at a position from
`lo` up to `hi` (excluded). -/
def ParamDecodes (h : rpcHandler) (req : request) (ds : List Event) (lo hi : Nat) : Prop :=
  ∀ e ∈ ds, ∃ j t p, e = Event.decode j t p.data ∧ lo ≤ j ∧ j < hi ∧
    h.paramsReceiver.get? j = some t ∧ req.Params.get? j = some p

/-- The panics raised by an index or a slice length out of range. -/
def IndexPanic (m : String) : Prop :=
  m = "index out of range" ∨ m = "makeslice: len out of range" ∨
    m = "reflect: Func index out of bounds"

/-- The actions that write nothing to the transport: lookups, decodes and calls. -/
def Quiet (es : List Event) : Prop :=
  ∀ e ∈ es, (∀ status, e ≠ Event.writeHeader status) ∧ ∀ resp, e ≠ Event.write resp

/-- What the decode loop can have done when control leaves it, as `DecodeOutcome`, with the
decodes described by `ParamDecodes`. -/
def ParamOutcome (E : Env) (h : rpcHandler) (req : request) (w : List Event) (lo hi : Nat) :
    Flow (List Value) → Prop
  | Flow.next _ w1 => ∃ ds, w1 = w ++ ds ∧ ParamDecodes h req ds lo hi
  | Flow.panic _ w1 => ∃ ds, w1 = w ++ ds ∧ ParamDecodes h req ds lo hi
  | Flow.ret w1 =>
    ∃ ds msg, w1 = w ++ ds ++ rpcError E [] req rpcParseError msg ∧ ParamDecodes h req ds lo hi

/-- The ways a `ServeHTTP` call can end after the lookup and the parameter decodes: with nothing
more (a panic before the call), with one `rpcError` call, with the call of the operation alone
(the call panicked, the request is a notification, or building the response panicked), or with
the call followed by the response. -/
inductive Tail (E : Env) (req : request) : List Event → Prop where
  | stop : Tail E req []
  | error (code : Int) (msg : String) : Tail E req (rpcError E [] req code msg)
  | called (args : List Value) (res : Option (List Value)) : Tail E req [Event.call args res]
  | answered (args res : List Value) (resp : response) :
      Tail E req [Event.call args (some res), Event.write resp]

/-! ## Registration: lemmas -/

theorem fillRecvs_length (ft : FuncType) :
    ∀ (n : Nat) (l : List GoType), fillRecvs ft n = .ok l → l.length = n := by
  intro n
  induction n with
  | zero =>
    intro l h
    simp [fillRecvs] at h
    subst h
    rfl
  | succ n ih =>
    intro l h
    unfold fillRecvs at h
    split at h
    · cases h
    · rename_i recvs hrec
      split at h
      · cases h
      · cases h
        simp [ih recvs hrec]

theorem detectCtx_cases (ft : FuncType) (c : Int) (h : detectCtx ft = .ok c) :
    c = 0 ∨ (c = 1 ∧ 2 ≤ ft.NumIn) := by
  unfold detectCtx at h
  split at h
  · rename_i hge
    split at h
    · cases h
    · split at h
      · cases h
        exact Or.inr ⟨rfl, hge⟩
      · cases h
        exact Or.inl rfl
  · cases h
    exact Or.inl rfl

theorem processOutput_ok (ft : FuncType) (v e n : Int) (h : processOutput ft = .ok (v, e, n)) :
    n = ft.NumOut ∧ (v = -1 ∨ (0 ≤ v ∧ v < n)) ∧ (e = -1 ∨ (0 ≤ e ∧ e < n)) ∧
      (v = e → v = -1 ∧ e = -1) := by
  unfold processOutput at h
  simp only at h
  split at h
  · rename_i h0
    cases h
    simp
  · split at h
    · rename_i h1
      split at h
      · cases h
      · split at h
        · cases h
          simp [h1]
        · cases h
          simp [h1]
    · split at h
      · rename_i h2
        split at h
        · cases h
        · split at h
          · cases h
          · cases h
            simp [h2]
      · cases h

theorem describe_wf (h : Handler) (m : Method) (d : rpcHandler) (hd : describe h m = .ok d) :
    d.WF := by
  unfold describe at hd
  simp only at hd
  split at hd
  · cases hd
  · rename_i c hc
    split at hd
    · cases hd
    · rename_i hins
      split at hd
      · cases hd
      · rename_i recvs hrec
        split at hd
        · cases hd
        · rename_i v e n hp
          cases hd
          have hlen := fillRecvs_length _ _ _ hrec
          have hpo := processOutput_ok _ _ _ _ hp
          have hcc := detectCtx_cases _ _ hc
          have hnum : (m.Func h.typ).typ.NumOut = (m.Type h.typ).NumOut := rfl
          have hnin : (m.Func h.typ).typ.NumIn = (m.Type h.typ).NumIn := rfl
          refine ⟨?_, ?_, ?_, ?_, ?_, ?_, ?_⟩
          · rcases hcc with hcc | hcc
            · exact Or.inl hcc
            · exact Or.inr hcc.1
          · show 0 ≤ (m.Type h.typ).NumIn - 1 - c
            omega
          · show ((recvs.length : Nat) : Int) = (m.Type h.typ).NumIn - 1 - c
            rw [hlen]
            omega
          · show (m.Type h.typ).NumIn - 1 - c + c + 1 = (m.Func h.typ).typ.NumIn
            rw [hnin]
            omega
          · show v = -1 ∨ (0 ≤ v ∧ v < (m.Func h.typ).typ.NumOut)
            rw [hnum, ← hpo.1]
            exact hpo.2.1
          · show e = -1 ∨ (0 ≤ e ∧ e < (m.Func h.typ).typ.NumOut)
            rw [hnum, ← hpo.1]
            exact hpo.2.2.1
          · exact hpo.2.2.2

theorem registerMethods_wf (namespace_ : String) (h : Handler) :
    ∀ (ms : List Method) (s : RPCServer),
      (∀ k d, s.methods k = some d → d.WF) →
      ∀ k d, (registerMethods s namespace_ h ms).1.methods k = some d → d.WF := by
  intro ms
  induction ms with
  | nil =>
    intro s hs k d hk
    exact hs k d hk
  | cons m rest ih =>
    intro s hs k d hk
    unfold registerMethods at hk
    split at hk
    · exact hs k d hk
    · rename_i d0 hd0
      refine ih (s.store (namespace_ ++ "." ++ m.Name) d0) ?_ k d hk
      intro k1 d1 hk1
      unfold RPCServer.store at hk1
      simp only at hk1
      split at hk1
      · have heq := Option.some.inj hk1
        subst heq
        exact describe_wf h m _ hd0
      · exact hs k1 d1 hk1

theorem Regiter_wf (s : RPCServer) (namespace_ : String) (handler : Option Handler)
    (hs : ∀ k d, s.methods k = some d → d.WF) :
    ∀ k d, (Regiter s namespace_ handler).1.methods k = some d → d.WF := by
  intro k d hk
  unfold Regiter at hk
  split at hk
  · exact hs k d hk
  · rename_i h
    split at hk
    · split at hk
      · exact hs k d hk
      · exact registerMethods_wf namespace_ h h.methods s hs k d hk
    · exact hs k d hk

theorem Reachable.wf {s : RPCServer} (hs : Reachable s) :
    ∀ k d, s.methods k = some d → d.WF := by
  induction hs with
  | new =>
    intro k d hk
    simp [NewServer] at hk
  | regiter s ns handler _ ih =>
    exact Regiter_wf s ns handler ih

/-! ## Dispatch: lemmas on traces -/

theorem responses_append (a b : List Event) : responses (a ++ b) = responses a ++ responses b := by
  induction a with
  | nil => rfl
  | cons e es ih => cases e <;> simp [responses, ih]

theorem invocations_append (a b : List Event) :
    invocations (a ++ b) = invocations a ++ invocations b := by
  induction a with
  | nil => rfl
  | cons e es ih => cases e <;> simp [invocations, ih]

theorem lookups_append (a b : List Event) : lookups (a ++ b) = lookups a ++ lookups b := by
  induction a with
  | nil => rfl
  | cons e es ih => cases e <;> simp [lookups, ih]

theorem decoded_append (a b : List Event) : decoded (a ++ b) = decoded a ++ decoded b := by
  induction a with
  | nil => rfl
  | cons e es ih => cases e <;> simp [decoded, ih]

theorem OnlyDecodes.responses {ds : List Event} {lo hi : Nat} (h : OnlyDecodes ds lo hi) :
    responses ds = [] := by
  induction ds with
  | nil => rfl
  | cons e es ih =>
    obtain ⟨j, t, d, he, _⟩ := h e (List.mem_cons_self _ _)
    subst he
    simp only [JsonRpc.responses]
    exact ih (fun e1 he1 => h e1 (List.mem_cons_of_mem _ he1))

theorem OnlyDecodes.invocations {ds : List Event} {lo hi : Nat} (h : OnlyDecodes ds lo hi) :
    invocations ds = [] := by
  induction ds with
  | nil => rfl
  | cons e es ih =>
    obtain ⟨j, t, d, he, _⟩ := h e (List.mem_cons_self _ _)
    subst he
    simp only [JsonRpc.invocations]
    exact ih (fun e1 he1 => h e1 (List.mem_cons_of_mem _ he1))

theorem OnlyDecodes.lookups {ds : List Event} {lo hi : Nat} (h : OnlyDecodes ds lo hi) :
    lookups ds = [] := by
  induction ds with
  | nil => rfl
  | cons e es ih =>
    obtain ⟨j, t, d, he, _⟩ := h e (List.mem_cons_self _ _)
    subst he
    simp only [JsonRpc.lookups]
    exact ih (fun e1 he1 => h e1 (List.mem_cons_of_mem _ he1))

theorem OnlyDecodes.decoded {ds : List Event} {lo hi : Nat} (h : OnlyDecodes ds lo hi) :
    ∀ j ∈ decoded ds, lo ≤ j ∧ j < hi := by
  induction ds with
  | nil =>
    intro j hj
    simp [JsonRpc.decoded] at hj
  | cons e es ih =>
    obtain ⟨j0, t, d, he, hb⟩ := h e (List.mem_cons_self _ _)
    subst he
    intro j hj
    simp only [JsonRpc.decoded, List.mem_cons] at hj
    rcases hj with hj | hj
    · subst hj
      exact hb
    · exact ih (fun e1 he1 => h e1 (List.mem_cons_of_mem _ he1)) j hj

theorem OnlyDecodes.no_call {ds : List Event} {lo hi : Nat} (h : OnlyDecodes ds lo hi)
    (args : List Value) (res : Option (List Value)) : Event.call args res ∉ ds := by
  intro hmem
  obtain ⟨j, t, d, he, _⟩ := h _ hmem
  cases he

theorem responses_rpcError (E : Env) (w : List Event) (r : request) (code : Int) (err : String) :
    responses (rpcError E w r code err) =
      responses w ++
        (match r.ID with
         | none => []
         | some id =>
           [{ Jsonrpc := E.Version, ID := id, Result := GoValue.nil
              Error := some { Code := code, Message := err } }]) := by
  unfold rpcError
  cases r.ID <;> simp [responses_append, responses]

theorem invocations_rpcError (E : Env) (w : List Event) (r : request) (code : Int)
    (err : String) : invocations (rpcError E w r code err) = invocations w := by
  unfold rpcError
  cases r.ID <;> simp [invocations_append, invocations]

theorem lookups_rpcError (E : Env) (w : List Event) (r : request) (code : Int)
    (err : String) : lookups (rpcError E w r code err) = lookups w := by
  unfold rpcError
  cases r.ID <;> simp [lookups_append, lookups]

theorem decoded_rpcError (E : Env) (w : List Event) (r : request) (code : Int)
    (err : String) : decoded (rpcError E w r code err) = decoded w := by
  unfold rpcError
  cases r.ID <;> simp [decoded_append, decoded]

theorem no_call_rpcError (E : Env) (w : List Event) (r : request) (code : Int) (err : String)
    (args : List Value) (res : Option (List Value))
    (h : Event.call args res ∈ rpcError E w r code err) : Event.call args res ∈ w := by
  unfold rpcError at h
  cases hid : r.ID <;> simp [hid] at h <;> exact h

/-! ## Dispatch: lemmas on the decode loop -/

theorem DecodeOutcome.step {E : Env} {req : request} {w : List Event} {i hi : Nat}
    {t : GoType} {d : List Byte} {r : Flow (List Value)} (hlt : i < hi)
    (h : DecodeOutcome E req (w ++ [Event.decode i t d]) (i + 1) hi r) :
    DecodeOutcome E req w i hi r := by
  have hcons : ∀ ds, OnlyDecodes ds (i + 1) hi → OnlyDecodes (Event.decode i t d :: ds) i hi := by
    intro ds hds e he
    rcases List.mem_cons.mp he with he | he
    · exact ⟨i, t, d, he, Nat.le_refl i, hlt⟩
    · obtain ⟨j, t1, d1, hj, hlo, hhi⟩ := hds e he
      exact ⟨j, t1, d1, hj, by omega, hhi⟩
  cases r with
  | next a w1 =>
    obtain ⟨ds, hw, hds⟩ := h
    exact ⟨Event.decode i t d :: ds, by simp [hw], hcons ds hds⟩
  | ret w1 =>
    obtain ⟨ds, msg, hw, hds⟩ := h
    exact ⟨Event.decode i t d :: ds, msg, by simp [hw], hcons ds hds⟩
  | panic m w1 =>
    obtain ⟨ds, hw, hds⟩ := h
    exact ⟨Event.decode i t d :: ds, by simp [hw], hcons ds hds⟩

theorem OnlyDecodes.nil (lo hi : Nat) : OnlyDecodes [] lo hi := by
  intro e he
  cases he

theorem OnlyDecodes.single (i hi : Nat) (t : GoType) (d : List Byte) (hlt : i < hi) :
    OnlyDecodes [Event.decode i t d] i hi := by
  intro e he
  rw [List.mem_singleton] at he
  exact ⟨i, t, d, he, Nat.le_refl i, hlt⟩

/-- Whatever the descriptor, the decode loop only decodes parameters, at positions from its
start up to the number of iterations, and reports at most one parse error. -/
theorem decodeParams_outcome (E : Env) (h : rpcHandler) (req : request) :
    ∀ (k i : Nat) (cp : List Value) (w : List Event),
      DecodeOutcome E req w i (i + k) (decodeParams E h req k i cp w) := by
  intro k
  induction k with
  | zero =>
    intro i cp w
    exact ⟨[], by simp, OnlyDecodes.nil _ _⟩
  | succ k ih =>
    intro i cp w
    rw [decodeParams]
    split
    · exact ⟨[], by simp, OnlyDecodes.nil _ _⟩
    · rename_i t ht
      split
      · exact ⟨[], by simp, OnlyDecodes.nil _ _⟩
      · rename_i p hp
        simp only
        split
        · rename_i err herr
          exact ⟨[Event.decode i t p.data], err, rfl, OnlyDecodes.single _ _ _ _ (by omega)⟩
        · rename_i v hv
          split
          · exact ⟨[Event.decode i t p.data], rfl, OnlyDecodes.single _ _ _ _ (by omega)⟩
          · rename_i cp1 hcp1
            have hrec := ih (i + 1) cp1 (w ++ [Event.decode i t p.data])
            have heq : i + 1 + k = i + (k + 1) := by omega
            rw [heq] at hrec
            exact DecodeOutcome.step (by omega) hrec

/-- A payload that fails to decode stops the loop: control does not go on to the call, and no
payload after the failing position is decoded. -/
theorem decodeParams_fail (E : Env) (h : rpcHandler) (req : request) (f : Nat) (t : GoType)
    (p : param) (msg : String) (ht : h.paramsReceiver.get? f = some t)
    (hp : req.Params.get? f = some p) (hfail : E.decode t p.data = .error msg) :
    ∀ (k i : Nat) (cp : List Value) (w : List Event), i ≤ f → f < i + k →
      DecodeOutcome E req w i (f + 1) (decodeParams E h req k i cp w) ∧
        ∀ cp1 w1, decodeParams E h req k i cp w ≠ Flow.next cp1 w1 := by
  intro k
  induction k with
  | zero =>
    intro i cp w hle hlt
    omega
  | succ k ih =>
    intro i cp w hle hlt
    rw [decodeParams]
    split
    · exact ⟨⟨[], by simp, OnlyDecodes.nil _ _⟩, by intro cp1 w1 hc; cases hc⟩
    · rename_i t0 ht0
      split
      · exact ⟨⟨[], by simp, OnlyDecodes.nil _ _⟩, by intro cp1 w1 hc; cases hc⟩
      · rename_i p0 hp0
        simp only
        split
        · rename_i err herr
          exact ⟨⟨[Event.decode i t0 p0.data], err, rfl,
            OnlyDecodes.single _ _ _ _ (by omega)⟩, by intro cp1 w1 hc; cases hc⟩
        · rename_i v hv
          have hne : i ≠ f := by
            intro hif
            subst hif
            rw [ht] at ht0
            rw [hp] at hp0
            cases ht0
            cases hp0
            rw [hfail] at hv
            cases hv
          split
          · exact ⟨⟨[Event.decode i t0 p0.data], rfl,
              OnlyDecodes.single _ _ _ _ (by omega)⟩, by intro cp1 w1 hc; cases hc⟩
          · rename_i cp1 hcp1
            have hrec := ih (i + 1) cp1 (w ++ [Event.decode i t0 p0.data]) (by omega) (by omega)
            exact ⟨DecodeOutcome.step (by omega) hrec.1, hrec.2⟩

/-- With as many declared types and payloads as iterations, and an argument vector long enough,
the decode loop does not panic, and it keeps the length of the argument vector. -/
theorem decodeParams_no_panic (E : Env) (h : rpcHandler) (req : request) (n : Nat)
    (hrecv : h.paramsReceiver.length = n) (hpar : req.Params.length = n)
    (hctx : 0 ≤ h.hasCtx) :
    ∀ (k i : Nat) (cp : List Value) (w : List Event), i + k = n →
      (cp.length : Int) = (n : Int) + h.hasCtx + 1 →
      (∀ m w1, decodeParams E h req k i cp w ≠ Flow.panic m w1) ∧
        ∀ cp1 w1, decodeParams E h req k i cp w = Flow.next cp1 w1 → cp1.length = cp.length := by
  intro k
  induction k with
  | zero =>
    intro i cp w _ _
    refine ⟨?_, ?_⟩
    · intro m w1 hc
      cases hc
    · intro cp1 w1 hc
      cases hc
      rfl
  | succ k ih =>
    intro i cp w hik hlen
    rw [decodeParams]
    have hi1 : i < h.paramsReceiver.length := by omega
    have hi2 : i < req.Params.length := by omega
    rw [List.get?_eq_get hi1, List.get?_eq_get hi2]
    simp only
    split
    · refine ⟨?_, ?_⟩
      · intro m w1 hc
        cases hc
      · intro cp1 w1 hc
        cases hc
    · rename_i v hv
      have hset : ∃ cp1, setIdx cp ((i : Int) + 1 + h.hasCtx)
          (New (h.paramsReceiver.get ⟨i, hi1⟩) v) = some cp1 ∧ cp1.length = cp.length := by
        unfold setIdx
        have h1 : ¬ ((i : Int) + 1 + h.hasCtx < 0) := by omega
        have h2 : ((i : Int) + 1 + h.hasCtx).toNat < cp.length := by omega
        simp [h1, h2]
      obtain ⟨cp1, hcp1, hlen1⟩ := hset
      rw [hcp1]
      simp only
      have hrec := ih (i + 1) cp1 (w ++ [Event.decode i (h.paramsReceiver.get ⟨i, hi1⟩)
        (req.Params.get ⟨i, hi2⟩).data]) (by omega) (by omega)
      refine ⟨hrec.1, ?_⟩
      intro cp2 w2 hc
      rw [hrec.2 cp2 w2 hc, hlen1]

/-! ## Dispatch: lemmas on the call and the response -/

theorem idx_some {α : Type} (l : List α) (i : Int) (h0 : 0 ≤ i) (h1 : i < l.length) :
    ∃ a, idx l i = some a := by
  unfold idx
  have hlt : i.toNat < l.length := by omega
  have hneg : ¬ i < 0 := by omega
  simp only [hneg, if_false]
  exact ⟨l.get ⟨i.toNat, hlt⟩, List.get?_eq_get hlt⟩

theorem assemble_ok (h : rpcHandler) (ctx : GoValue) (hwf : h.WF) :
    ∃ cp, assemble h ctx = .ok cp ∧ (cp.length : Int) = h.nParams + h.hasCtx + 1 := by
  have hn := hwf.nParams
  have hc := hwf.hasCtx
  unfold assemble make
  have hneg : ¬ (h.nParams + h.hasCtx + 1 < 0) := by omega
  simp only [hneg, if_false]
  have hlen : (List.replicate (h.nParams + h.hasCtx + 1).toNat Value.zero).length
      = (h.nParams + h.hasCtx + 1).toNat := List.length_replicate _ _
  have h0 : (0 : Int).toNat < (List.replicate (h.nParams + h.hasCtx + 1).toNat Value.zero).length := by
    rw [hlen]
    simp
    omega
  simp only [setIdx, h0, if_true, Int.lt_irrefl, if_false]
  rcases hc with hc | hc
  · have hne : h.hasCtx ≠ 1 := by omega
    simp only [hne, if_false]
    refine ⟨_, rfl, ?_⟩
    simp
    omega
  · simp only [hc, if_true]
    have hneg1 : ¬ ((1 : Int) < 0) := by omega
    have h1 : (1 : Int).toNat < ((List.replicate (h.nParams + 1 + 1).toNat Value.zero).set
        (0 : Int).toNat h.reciver).length := by
      simp
      omega
    simp only [hneg1, if_false, h1, if_true]
    refine ⟨_, rfl, ?_⟩
    simp
    omega

theorem wrapOuts_length : ∀ (outs : List GoType) (vs : List GoValue),
    (wrapOuts outs vs).length = outs.length := by
  intro outs
  induction outs with
  | nil =>
    intro vs
    rfl
  | cons t ts ih =>
    intro vs
    simp [wrapOuts, ih]

theorem Call_length (f : GoFunc) (args res : List Value) (h : Call f args = .ok res) :
    (res.length : Int) = f.typ.NumOut := by
  unfold Call at h
  split at h
  · cases h
  · split at h
    · cases h
    · cases h
      simp [wrapOuts_length, FuncType.NumOut]

/-- An invocation is in the trace only on the path through lookup, arity check, assembly and
the decode loop. -/
theorem ServeHTTP_call (E : Env) (s : RPCServer) (ctx : GoValue) (req : request)
    (derr : Option String) (args : List Value) (res : Option (List Value))
    (hmem : Event.call args res ∈ (ServeHTTP E s ctx req derr).trace) :
    ∃ h cp0 w, s.methods req.Method = some h ∧ (req.Params.length : Int) = h.nParams ∧
      assemble h ctx = .ok cp0 ∧
      decodeParams E h req h.nParams.toNat 0 cp0 (preamble E req derr) = Flow.next args w ∧
      res = (match Call h.handleFunc args with
             | .ok r => some r
             | .error _ => none) := by
  have hpre : ∀ a r, Event.call a r ∉ preamble E req derr := by
    intro a r hc
    unfold preamble at hc
    rcases List.mem_append.mp hc with hc | hc
    · cases derr with
      | none => cases hc
      | some err =>
        have hc1 := no_call_rpcError E [] req rpcParseError err a r hc
        cases hc1
    · rw [List.mem_singleton] at hc
      cases hc
  have hout : ∀ (h : rpcHandler) (cp : List Value) (a : List Value) (r : Option (List Value)),
      Event.call a r ∉
        (decodeParams E h req h.nParams.toNat 0 cp (preamble E req derr)).trace := by
    intro h cp a r
    have ho := decodeParams_outcome E h req h.nParams.toNat 0 cp (preamble E req derr)
    cases hd : decodeParams E h req h.nParams.toNat 0 cp (preamble E req derr) with
    | next cp1 w1 =>
      rw [hd] at ho
      obtain ⟨ds, hw, hds⟩ := ho
      intro hc
      simp only [Flow.trace] at hc
      rw [hw] at hc
      rcases List.mem_append.mp hc with hc2 | hc2
      · exact hpre a r hc2
      · exact hds.no_call a r hc2
    | ret w1 =>
      rw [hd] at ho
      obtain ⟨ds, msg, hw, hds⟩ := ho
      intro hc
      simp only [Flow.trace] at hc
      rw [hw] at hc
      have hc1 := no_call_rpcError E _ req rpcParseError msg a r hc
      rcases List.mem_append.mp hc1 with hc2 | hc2
      · exact hpre a r hc2
      · exact hds.no_call a r hc2
    | panic m w1 =>
      rw [hd] at ho
      obtain ⟨ds, hw, hds⟩ := ho
      intro hc
      simp only [Flow.trace] at hc
      rw [hw] at hc
      rcases List.mem_append.mp hc with hc2 | hc2
      · exact hpre a r hc2
      · exact hds.no_call a r hc2
  unfold ServeHTTP at hmem
  simp only at hmem
  unfold preamble at hpre hout ⊢
  split at hmem
  · exact absurd (no_call_rpcError _ _ _ _ _ _ _ hmem) (hpre _ _)
  · rename_i h hh
    split at hmem
    · exact absurd (no_call_rpcError _ _ _ _ _ _ _ hmem) (hpre _ _)
    · rename_i hlen
      split at hmem
      · exact absurd hmem (hpre _ _)
      · rename_i cp0 hcp0
        have hno := hout h cp0
        split at hmem
        · rename_i m w1 hd
          rw [hd] at hno
          exact absurd hmem (hno _ _)
        · rename_i w1 hd
          rw [hd] at hno
          exact absurd hmem (hno _ _)
        · rename_i cp1 w1 hd
          rw [hd] at hno
          simp only [Flow.trace] at hno
          have hkey : args = cp1 ∧ res = (match Call h.handleFunc cp1 with
              | .ok r => some r
              | .error _ => none) := by
            cases hcall : Call h.handleFunc cp1 with
            | error m =>
              rw [hcall] at hmem
              simp only [List.mem_append, List.mem_singleton] at hmem
              rcases hmem with hmem | hmem
              · exact absurd hmem (hno _ _)
              · cases hmem
                exact ⟨rfl, rfl⟩
            | ok callResult =>
              rw [hcall] at hmem
              simp only at hmem
              split at hmem
              · simp only [List.mem_append, List.mem_singleton] at hmem
                rcases hmem with hmem | hmem
                · exact absurd hmem (hno _ _)
                · cases hmem
                  exact ⟨rfl, rfl⟩
              · split at hmem
                · simp only [List.mem_append, List.mem_singleton] at hmem
                  rcases hmem with hmem | hmem
                  · exact absurd hmem (hno _ _)
                  · cases hmem
                    exact ⟨rfl, rfl⟩
                · simp only [List.mem_append, List.mem_singleton] at hmem
                  rcases hmem with (hmem | hmem) | hmem
                  · exact absurd hmem (hno _ _)
                  · cases hmem
                    exact ⟨rfl, rfl⟩
                  · cases hmem
          obtain ⟨hargs, hres⟩ := hkey
          subst hargs
          exact ⟨h, cp0, w1, hh, by simpa using hlen, hcp0, hd, hres⟩

/-- On the path through the call, `ServeHTTP` does what the decode loop did, then the call, then
(for a request with an id) writes the response built from the results. -/
theorem ServeHTTP_success (E : Env) (s : RPCServer) (ctx : GoValue) (req : request)
    (derr : Option String) (h : rpcHandler) (cp0 args : List Value) (w : List Event)
    (results : List Value) (hh : s.methods req.Method = some h)
    (hlen : (req.Params.length : Int) = h.nParams) (hcp0 : assemble h ctx = .ok cp0)
    (hd : decodeParams E h req h.nParams.toNat 0 cp0 (preamble E req derr) = Flow.next args w)
    (hcall : Call h.handleFunc args = .ok results) :
    ServeHTTP E s ctx req derr =
      (match req.ID with
       | none => { trace := w ++ [Event.call args (some results)], panicked := none }
       | some id =>
         match buildResponse E h id results with
         | .error m => { trace := w ++ [Event.call args (some results)], panicked := some m }
         | .ok resp =>
           { trace := w ++ [Event.call args (some results)] ++ [Event.write resp]
             panicked := none }) := by
  unfold preamble at hd
  unfold ServeHTTP
  simp only [hh, hlen, ne_eq, not_true_eq_false, if_false, hcp0, hd, hcall]

theorem buildResponse_error (E : Env) (h : rpcHandler) (id : Int) (results : List Value)
    (t : GoType) (e : String) (herr : h.errOut ≠ -1)
    (hres : idx results h.errOut = some (Value.mk t (GoValue.errorString e)))
    (hval : h.valOut = -1 ∨ ∃ rv, idx results h.valOut = some rv) :
    ∃ resp, buildResponse E h id results = .ok resp ∧ resp.ID = id ∧
      resp.Error = some { Code := 1, Message := e } ∧
      (h.valOut = -1 → resp.Result = GoValue.nil) ∧
      (∀ rv, h.valOut ≠ -1 → idx results h.valOut = some rv → resp.Result = rv.box) := by
  unfold buildResponse
  simp only [herr, ne_eq, not_false_eq_true, if_true, hres, Value.Interface, GoValue.Error]
  have hne : GoValue.errorString e ≠ GoValue.nil := by
    intro hc
    cases hc
  simp only [hne, not_false_eq_true, if_true]
  rcases hval with hval | ⟨rv, hrv⟩
  · simp [hval]
  · by_cases hv : h.valOut = -1
    · simp [hv]
    · simp [hv, hrv]

theorem decodeParams_next_trace (E : Env) (h : rpcHandler) (req : request) (k i : Nat)
    (cp cp1 : List Value) (w w1 : List Event)
    (hd : decodeParams E h req k i cp w = Flow.next cp1 w1) :
    responses w1 = responses w ∧ invocations w1 = invocations w ∧
      lookups w1 = lookups w := by
  have ho := decodeParams_outcome E h req k i cp w
  rw [hd] at ho
  obtain ⟨ds, hw, hds⟩ := ho
  subst hw
  rw [responses_append, invocations_append, lookups_append, hds.responses, hds.invocations,
    hds.lookups]
  simp

theorem preamble_none (E : Env) (req : request) :
    preamble E req none = [Event.lookup req.Method] := rfl

/-- When the decode loop makes `ServeHTTP` return, nothing more is done. -/
theorem ServeHTTP_decode_ret (E : Env) (s : RPCServer) (ctx : GoValue) (req : request)
    (derr : Option String) (h : rpcHandler) (cp0 : List Value) (w : List Event)
    (hh : s.methods req.Method = some h)
    (hlen : (req.Params.length : Int) = h.nParams) (hcp0 : assemble h ctx = .ok cp0)
    (hd : decodeParams E h req h.nParams.toNat 0 cp0 (preamble E req derr) = Flow.ret w) :
    ServeHTTP E s ctx req derr = { trace := w, panicked := none } := by
  unfold preamble at hd
  unfold ServeHTTP
  simp only [hh, hlen, ne_eq, not_true_eq_false, if_false, hcp0, hd]

/-! ## The dispatcher: error results, notifications, unknown methods, arity -/

theorem Value.box_ne_nil (rv : Value) : rv.box ≠ GoValue.nil := by
  cases rv <;> intro hc <;> cases hc

/-- In a registry built by `Regiter`, when an operation was invoked for a request with an id and
its error output is the non-nil error `e`: one response is written, with the request's id and
the error object of code 1 and message `e`; its result is the nil interface exactly when the
descriptor designates no value output. -/
theorem ServeHTTP_error_path (E : Env) (s : RPCServer) (ctx : GoValue) (req : request)
    (id : Int) (h : rpcHandler) (args results : List Value) (t : GoType) (e : String)
    (hs : Reachable s) (hid : req.ID = some id) (hh : s.methods req.Method = some h)
    (herr : h.errOut ≠ -1)
    (hcall : Event.call args (some results) ∈ (ServeHTTP E s ctx req none).trace)
    (hres : idx results h.errOut = some (Value.mk t (GoValue.errorString e))) :
    ∃ r, responses (ServeHTTP E s ctx req none).trace = [r] ∧ r.ID = id ∧
      r.Error = some { Code := 1, Message := e } ∧
      (r.Result = GoValue.nil ↔ h.valOut = -1) := by
  obtain ⟨h1, cp0, w, hh1, hlen, hcp0, hd, hr⟩ := ServeHTTP_call E s ctx req none _ _ hcall
  rw [hh] at hh1
  cases hh1
  have hc : Call h.handleFunc args = .ok results := by
    cases hcl : Call h.handleFunc args with
    | error m =>
      rw [hcl] at hr
      cases hr
    | ok r =>
      rw [hcl] at hr
      cases hr
      rfl
  have hwf := hs.wf _ _ hh
  have hl := Call_length _ _ _ hc
  have hval : h.valOut = -1 ∨ ∃ rv, idx results h.valOut = some rv := by
    rcases hwf.valOut with hv | ⟨hv0, hv1⟩
    · exact Or.inl hv
    · exact Or.inr (idx_some _ _ hv0 (by omega))
  obtain ⟨resp, hb, hrid, hrerr, hnil, hbox⟩ :=
    buildResponse_error E h id results t e herr hres hval
  rw [ServeHTTP_success E s ctx req none h cp0 args w results hh hlen hcp0 hd hc]
  simp only [hid, hb]
  have hw := (decodeParams_next_trace E h req _ _ _ _ _ _ hd).1
  refine ⟨resp, ?_, hrid, hrerr, ?_⟩
  · rw [responses_append, responses_append, hw, preamble_none]
    simp [responses]
  · constructor
    · intro hrn
      rcases hval with hv | ⟨rv, hrv⟩
      · exact hv
      · by_contra hv
        rw [hbox rv hv hrv] at hrn
        exact Value.box_ne_nil rv hrn
    · exact hnil

/-- C2: in a registry built by `Regiter`, for a request with an id whose operation was invoked
and returned, when the descriptor designates an error output and that output is a non-nil error
`e`, `ServeHTTP` writes one response, whose id is the request's id and whose error object has
code 1 and the message `e`. -/
theorem ServeHTTP_error_reported (E : Env) (s : RPCServer) (ctx : GoValue) (req : request)
    (id : Int) (h : rpcHandler) (args results : List Value) (t : GoType) (e : String)
    (hs : Reachable s) (hid : req.ID = some id) (hh : s.methods req.Method = some h)
    (herr : h.errOut ≠ -1)
    (hcall : Event.call args (some results) ∈ (ServeHTTP E s ctx req none).trace)
    (hres : idx results h.errOut = some (Value.mk t (GoValue.errorString e))) :
    ∃ r, responses (ServeHTTP E s ctx req none).trace = [r] ∧ r.ID = id ∧
      r.Error = some { Code := 1, Message := e } := by
  obtain ⟨r, hr, hrid, hrerr, _⟩ :=
    ServeHTTP_error_path E s ctx req id h args results t e hs hid hh herr hcall hres
  exact ⟨r, hr, hrid, hrerr⟩

/-- C2, on the handler `*Calc`: `calc.Fail` with id 7 yields one response with id 7 and the
error object with code 1 and message "boom". -/
theorem ServeHTTP_error_reported_witness :
    ∃ r, responses (ServeHTTP sampleEnv calcServer bg (bareRequest "calc.Fail" (some 7))
        none).trace = [r] ∧ r.ID = 7 ∧ r.Error = some { Code := 1, Message := "boom" } :=
  ServeHTTP_error_reported sampleEnv calcServer bg (bareRequest "calc.Fail" (some 7)) 7 _
    [Value.mk (GoType.ptr (GoType.struct "Calc"))
      (GoValue.ptr (GoType.struct "Calc") (GoValue.struct "Calc"))]
    [Value.mk GoType.error (GoValue.errorString "boom")] GoType.error "boom"
    (Reachable.regiter NewServer "calc" (some calcHandler) Reachable.new) rfl rfl
    (by decide) (by decide) (by decide)

/-- C4: for every registry and every decoded request without an id, `ServeHTTP` writes no
response envelope, whichever path it takes. -/
theorem ServeHTTP_notification_silent (E : Env) (s : RPCServer) (ctx : GoValue) (req : request)
    (hid : req.ID = none) : responses (ServeHTTP E s ctx req none).trace = [] := by
  have hpre : responses (preamble E req none) = [] := rfl
  have herrsil : ∀ w code msg, responses w = [] → responses (rpcError E w req code msg) = [] := by
    intro w code msg hw
    rw [responses_rpcError, hw, hid]
    rfl
  unfold ServeHTTP
  simp only
  split
  · exact herrsil _ _ _ hpre
  · rename_i h hh
    split
    · exact herrsil _ _ _ hpre
    · split
      · exact hpre
      · rename_i cp0 hcp0
        have ho := decodeParams_outcome E h req h.nParams.toNat 0 cp0 (preamble E req none)
        unfold preamble at ho hpre
        split
        · rename_i m w1 hd
          rw [hd] at ho
          obtain ⟨ds, hw, hds⟩ := ho
          simp only [hw, responses_append, hpre, hds.responses, List.append_nil]
        · rename_i w1 hd
          rw [hd] at ho
          obtain ⟨ds, msg, hw, hds⟩ := ho
          simp only [hw]
          apply herrsil
          simp only [responses_append, hpre, hds.responses, List.append_nil]
        · rename_i cp1 w1 hd
          rw [hd] at ho
          obtain ⟨ds, hw, hds⟩ := ho
          have hw1 : responses w1 = [] := by
            simp only [hw, responses_append, hpre, hds.responses, List.append_nil]
          split
          · simp [responses_append, hw1, responses]
          · simp only [hid]
            simp [responses_append, hw1, responses]

/-- C4, on the handler `*Calc`: the notification `calc.Fail`, whose operation returns a non-nil
error, is invoked and nothing is written. -/
theorem ServeHTTP_notification_silent_witness :
    (bareRequest "calc.Fail" none).ID = none ∧
      responses (ServeHTTP sampleEnv calcServer bg (bareRequest "calc.Fail" none) none).trace
        = [] :=
  ⟨rfl, ServeHTTP_notification_silent sampleEnv calcServer bg (bareRequest "calc.Fail" none) rfl⟩

/-- C5: for every registry and every decoded request with an id whose method is not a key of
the registry, `ServeHTTP` invokes no operation and writes exactly one response: the id echoed,
no result, and an error object with code -32601. -/
theorem ServeHTTP_method_not_found (E : Env) (s : RPCServer) (ctx : GoValue) (req : request)
    (id : Int) (hid : req.ID = some id) (hm : s.methods req.Method = none) :
    invocations (ServeHTTP E s ctx req none).trace = [] ∧
      responses (ServeHTTP E s ctx req none).trace =
        [{ Jsonrpc := E.Version, ID := id, Result := GoValue.nil
           Error := some { Code := -32601, Message := "Method not found" } }] ∧
      (ServeHTTP E s ctx req none).panicked = none := by
  unfold ServeHTTP
  simp only [hm]
  refine ⟨?_, ?_, trivial⟩
  · rw [invocations_rpcError]
    rfl
  · rw [responses_rpcError, hid]
    rfl

/-- C5, on the handler `*Calc`: `calc.Nope` is not registered. -/
theorem ServeHTTP_method_not_found_witness :
    invocations (ServeHTTP sampleEnv calcServer bg (bareRequest "calc.Nope" (some 7))
        none).trace = [] ∧
      responses (ServeHTTP sampleEnv calcServer bg (bareRequest "calc.Nope" (some 7))
        none).trace =
        [{ Jsonrpc := "2.0", ID := 7, Result := GoValue.nil
           Error := some { Code := -32601, Message := "Method not found" } }] ∧
      (ServeHTTP sampleEnv calcServer bg (bareRequest "calc.Nope" (some 7)) none).panicked
        = none :=
  ServeHTTP_method_not_found sampleEnv calcServer bg (bareRequest "calc.Nope" (some 7)) 7 rfl
    rfl

/-- C6: for every decoded request whose method resolves to a descriptor and whose number of
params differs from the descriptor's `nParams`, `ServeHTTP` invokes no operation and decodes no
parameter; when the request has an id it writes exactly one response: the id echoed, no result,
and an error object with the code `rpcInvalidParams` and the message "wrong params count". -/
theorem ServeHTTP_wrong_params_count (E : Env) (s : RPCServer) (ctx : GoValue) (req : request)
    (h : rpcHandler) (hh : s.methods req.Method = some h)
    (hlen : (req.Params.length : Int) ≠ h.nParams) :
    invocations (ServeHTTP E s ctx req none).trace = [] ∧
      decoded (ServeHTTP E s ctx req none).trace = [] ∧
      (ServeHTTP E s ctx req none).panicked = none ∧
      ∀ id, req.ID = some id →
        responses (ServeHTTP E s ctx req none).trace =
          [{ Jsonrpc := E.Version, ID := id, Result := GoValue.nil
             Error := some { Code := rpcInvalidParams, Message := "wrong params count" } }] := by
  unfold ServeHTTP
  simp only [hh, hlen, ne_eq, not_false_eq_true, if_true]
  refine ⟨?_, ?_, trivial, ?_⟩
  · rw [invocations_rpcError]
    rfl
  · rw [decoded_rpcError]
    rfl
  · intro id hid
    rw [responses_rpcError, hid]
    rfl

/-- C6, on the handler `*Calc`: `calc.Add` declares two parameters and is sent none. -/
theorem ServeHTTP_wrong_params_count_witness :
    invocations (ServeHTTP sampleEnv calcServer bg (bareRequest "calc.Add" (some 7))
        none).trace = [] ∧
      decoded (ServeHTTP sampleEnv calcServer bg (bareRequest "calc.Add" (some 7))
        none).trace = [] ∧
      (ServeHTTP sampleEnv calcServer bg (bareRequest "calc.Add" (some 7)) none).panicked
        = none ∧
      ∀ id, (bareRequest "calc.Add" (some 7)).ID = some id →
        responses (ServeHTTP sampleEnv calcServer bg (bareRequest "calc.Add" (some 7))
          none).trace =
          [{ Jsonrpc := "2.0", ID := id, Result := GoValue.nil
             Error := some { Code := rpcInvalidParams, Message := "wrong params count" } }] :=
  ServeHTTP_wrong_params_count sampleEnv calcServer bg (bareRequest "calc.Add" (some 7)) _ rfl
    (by decide)

/-- C9: in a registry built by `Regiter`, for every decoded request whose method resolves and
whose params count equals `nParams`, if the payload at position `i` fails to decode into the
type the descriptor holds at `i`, then `ServeHTTP` decodes no payload after position `i`,
invokes no operation, does not panic, and, when the request has an id, writes exactly one
response: a parse error with code -32700, the id echoed and no result. -/
theorem ServeHTTP_param_decode_failure (E : Env) (s : RPCServer) (ctx : GoValue)
    (req : request) (h : rpcHandler) (i : Nat) (p : param) (t : GoType) (msg : String)
    (hs : Reachable s) (hh : s.methods req.Method = some h)
    (hlen : (req.Params.length : Int) = h.nParams)
    (hp : req.Params.get? i = some p) (ht : h.paramsReceiver.get? i = some t)
    (hfail : E.decode t p.data = .error msg) :
    (∀ j ∈ decoded (ServeHTTP E s ctx req none).trace, j ≤ i) ∧
      invocations (ServeHTTP E s ctx req none).trace = [] ∧
      (ServeHTTP E s ctx req none).panicked = none ∧
      ∀ id, req.ID = some id →
        ∃ m, responses (ServeHTTP E s ctx req none).trace =
          [{ Jsonrpc := E.Version, ID := id, Result := GoValue.nil
             Error := some { Code := -32700, Message := m } }] := by
  have hwf := hs.wf _ _ hh
  obtain ⟨cp0, hcp0, hcplen⟩ := assemble_ok h ctx hwf
  have hn := hwf.nParams
  have hrl := hwf.recvLen
  have hi : i < req.Params.length := by
    rcases Nat.lt_or_ge i req.Params.length with hlt | hge
    · exact hlt
    · rw [List.get?_eq_none.mpr hge] at hp
      cases hp
  have hnp := decodeParams_no_panic E h req h.nParams.toNat (by omega) (by omega)
    (by rcases hwf.hasCtx with hc | hc <;> omega) h.nParams.toNat 0 cp0
    (preamble E req none) (by omega) (by omega)
  have hf := decodeParams_fail E h req i t p msg ht hp hfail h.nParams.toNat 0 cp0
    (preamble E req none) (Nat.zero_le i) (by omega)
  cases hd : decodeParams E h req h.nParams.toNat 0 cp0 (preamble E req none) with
  | next cp1 w1 => exact absurd hd (hf.2 cp1 w1)
  | panic m w1 => exact absurd hd (hnp.1 m w1)
  | ret w1 =>
    have ho := hf.1
    rw [hd] at ho
    obtain ⟨ds, m, hw, hds⟩ := ho
    rw [ServeHTTP_decode_ret E s ctx req none h cp0 w1 hh hlen hcp0 hd]
    simp only [hw, preamble_none]
    refine ⟨?_, ?_, ?_⟩
    · intro j hj
      rw [decoded_rpcError, decoded_append] at hj
      simp only [decoded, List.nil_append] at hj
      have hb := hds.decoded j hj
      omega
    · rw [invocations_rpcError, invocations_append, hds.invocations]
      rfl
    · refine ⟨trivial, ?_⟩
      intro id hid
      refine ⟨m, ?_⟩
      rw [responses_rpcError, responses_append, hds.responses, hid]
      rfl

/-- C9, on the handler `*Calc`: the descriptor of `calc.Add` holds the type `*Calc` at position
0, into which the payload `2` does not decode. -/
theorem ServeHTTP_param_decode_failure_witness :
    (∀ j ∈ decoded (ServeHTTP sampleEnv calcServer bg addRequest none).trace, j ≤ 0) ∧
      invocations (ServeHTTP sampleEnv calcServer bg addRequest none).trace = [] ∧
      (ServeHTTP sampleEnv calcServer bg addRequest none).panicked = none ∧
      ∀ id, addRequest.ID = some id →
        ∃ m, responses (ServeHTTP sampleEnv calcServer bg addRequest none).trace =
          [{ Jsonrpc := "2.0", ID := id, Result := GoValue.nil
             Error := some { Code := -32700, Message := m } }] :=
  ServeHTTP_param_decode_failure sampleEnv calcServer bg addRequest _ 0
    { data := [50], val := Value.zero } (GoType.ptr (GoType.struct "Calc"))
    "json: cannot unmarshal into Go value of type Calc"
    (Reachable.regiter NewServer "calc" (some calcHandler) Reachable.new) rfl (by decide) rfl
    rfl rfl

/-! ## Registration: output shapes -/

theorem processOutput_error_iff (ft : FuncType) :
    (∃ m, processOutput ft = .error m) ↔ BadOutputs ft.outs := by
  obtain ⟨ins, outs⟩ := ft
  match outs with
  | [] => simp [processOutput, FuncType.NumOut, BadOutputs]
  | [t] =>
    by_cases ht : t = errorType <;>
      simp [processOutput, FuncType.NumOut, FuncType.Out, idx, BadOutputs, ht]
  | [t1, t2] =>
    by_cases ht : t2 = errorType <;>
      simp [processOutput, FuncType.NumOut, FuncType.Out, idx, BadOutputs, ht]
  | t1 :: t2 :: t3 :: rest =>
    have h0 : ¬ ((rest.length : Int) + 1 + 1 + 1 = 0) := by omega
    have h1 : ¬ ((rest.length : Int) + 1 + 1 + 1 = 1) := by omega
    have h2 : ¬ ((rest.length : Int) + 1 + 1 + 1 = 2) := by omega
    simp [processOutput, FuncType.NumOut, BadOutputs, h0, h1, h2]

theorem fillRecvs_ok (ft : FuncType) :
    ∀ n : Nat, n ≤ ft.ins.length → ∃ l, fillRecvs ft n = .ok l := by
  intro n
  induction n with
  | zero =>
    intro _
    exact ⟨[], rfl⟩
  | succ n ih =>
    intro hn
    obtain ⟨l, hl⟩ := ih (by omega)
    obtain ⟨a, ha⟩ := idx_some ft.ins (n : Int) (by omega) (by omega)
    refine ⟨l ++ [a], ?_⟩
    simp [fillRecvs, hl, FuncType.In, ha]

theorem detectCtx_ok (ft : FuncType) : ∃ c, detectCtx ft = .ok c := by
  unfold detectCtx
  split
  · rename_i hge
    have hge1 : (2 : Int) ≤ ft.ins.length := hge
    obtain ⟨a, ha⟩ := idx_some ft.ins 1 (by omega) (by omega)
    simp only [FuncType.In, ha]
    split
    · exact ⟨1, rfl⟩
    · exact ⟨0, rfl⟩
  · exact ⟨0, rfl⟩

theorem describe_error_iff (h : Handler) (m : Method) :
    (∃ msg, describe h m = .error msg) ↔ BadOutputs m.outs := by
  have hp := processOutput_error_iff (m.Type h.typ)
  have houts : (m.Type h.typ).outs = m.outs := rfl
  rw [houts] at hp
  rw [← hp]
  obtain ⟨c, hc⟩ := detectCtx_ok (m.Type h.typ)
  have hcc := detectCtx_cases _ _ hc
  have hnin : (m.Type h.typ).NumIn = ((m.Type h.typ).ins.length : Int) := rfl
  have hpos : 1 ≤ (m.Type h.typ).ins.length := by
    simp [Method.Type]
  have hins : ¬ ((m.Type h.typ).NumIn - 1 - c < 0) := by omega
  obtain ⟨l, hl⟩ := fillRecvs_ok (m.Type h.typ) ((m.Type h.typ).NumIn - 1 - c).toNat (by omega)
  unfold describe
  simp only [hc, hins, if_false, hl]
  cases hpo : processOutput (m.Type h.typ) with
  | error e => simp
  | ok r =>
    obtain ⟨v, e, n⟩ := r
    simp

theorem registerMethods_panic_iff (namespace_ : String) (h : Handler) :
    ∀ (ms : List Method) (s : RPCServer),
      (registerMethods s namespace_ h ms).2 ≠ none ↔ ∃ m ∈ ms, BadOutputs m.outs := by
  intro ms
  induction ms with
  | nil =>
    intro s
    simp [registerMethods]
  | cons m rest ih =>
    intro s
    have hd := describe_error_iff h m
    unfold registerMethods
    cases hdm : describe h m with
    | error e =>
      have hb : BadOutputs m.outs := hd.mp ⟨e, hdm⟩
      simp only [ne_eq, reduceCtorEq, not_false_eq_true, true_iff]
      exact ⟨m, List.mem_cons_self _ _, hb⟩
    | ok d =>
      have hb : ¬ BadOutputs m.outs := by
        intro hb
        obtain ⟨e, he⟩ := hd.mpr hb
        rw [hdm] at he
        cases he
      simp only
      rw [ih]
      constructor
      · rintro ⟨m1, hm1, hb1⟩
        exact ⟨m1, List.mem_cons_of_mem _ hm1, hb1⟩
      · rintro ⟨m1, hm1, hb1⟩
        rcases List.mem_cons.mp hm1 with heq | hmem
        · subst heq
          exact absurd hb1 hb
        · exact ⟨m1, hmem, hb1⟩

/-- C10: `processOutput` panics if and only if the operation declares three or more outputs, or
exactly two whose second is not the error type; otherwise it returns `(valOut, errOut)` equal to
`(-1, -1)` for no output, `(-1, 0)` for a single output of the error type, `(0, -1)` for a single
output of another type, and `(0, 1)` for two outputs. `Regiter` on a pointer to a struct panics
if and only if one of the exposed methods has such a rejected shape. -/
theorem processOutput_shapes (ft : FuncType) :
    ((∃ m, processOutput ft = .error m) ↔
        (3 ≤ ft.outs.length ∨ (ft.outs.length = 2 ∧ ft.outs.get? 1 ≠ some errorType))) ∧
      (ft.outs = [] → processOutput ft = .ok (-1, -1, 0)) ∧
      (∀ t, ft.outs = [t] → t = errorType → processOutput ft = .ok (-1, 0, 1)) ∧
      (∀ t, ft.outs = [t] → t ≠ errorType → processOutput ft = .ok (0, -1, 1)) ∧
      (∀ t, ft.outs = [t, errorType] → processOutput ft = .ok (0, 1, 2)) ∧
      ∀ (s : RPCServer) (namespace_ : String) (h : Handler) (elem : GoType),
        h.typ = GoType.ptr elem → elem.Kind = Kind.Struct →
        ((Regiter s namespace_ (some h)).2 ≠ none ↔
          ∃ m ∈ h.methods, 3 ≤ m.outs.length ∨
            (m.outs.length = 2 ∧ m.outs.get? 1 ≠ some errorType)) := by
  refine ⟨processOutput_error_iff ft, ?_, ?_, ?_, ?_, ?_⟩
  · intro h
    simp [processOutput, FuncType.NumOut, h]
  · intro t h ht
    simp [processOutput, FuncType.NumOut, FuncType.Out, idx, h, ht]
  · intro t h ht
    simp [processOutput, FuncType.NumOut, FuncType.Out, idx, h, ht]
  · intro t h
    simp [processOutput, FuncType.NumOut, FuncType.Out, idx, h]
  · intro s ns h elem htyp hk
    have hreg : Regiter s ns (some h) = registerMethods s ns h h.methods := by
      unfold Regiter
      simp only [htyp, hk, ne_eq, not_true_eq_false, if_false]
    rw [hreg]
    exact registerMethods_panic_iff ns h h.methods s

/-! ## The dispatcher on the handler `*Calc` -/

/-- C1: on the handler `*Calc` registered under "calc", the request `calc.Add` with params
`[2, 3]` and id 1 is not answered with the result 5. The descriptor holds the types `*Calc` and
`int`, the payload `2` does not decode into `*Calc`, `Add` is not invoked, and the one response
is a parse error without result. For `calc.Five`, which takes no parameter and returns
`(5, nil)`, the result of the response is the `reflect.Value` struct wrapping 5, which is not
the value 5. -/
theorem ServeHTTP_Add_round_trip :
    (calcServer.methods "calc.Add").map (fun h => h.paramsReceiver)
        = some [GoType.ptr (GoType.struct "Calc"), GoType.int] ∧
      invocations (ServeHTTP sampleEnv calcServer bg addRequest none).trace = [] ∧
      (∃ m, responses (ServeHTTP sampleEnv calcServer bg addRequest none).trace =
        [{ Jsonrpc := "2.0", ID := 1, Result := GoValue.nil
           Error := some { Code := -32700, Message := m } }]) ∧
      responses (ServeHTTP sampleEnv calcServer bg (bareRequest "calc.Five" (some 7))
        none).trace =
        [{ Jsonrpc := "2.0", ID := 7
           Result := GoValue.reflectValue GoType.int (GoValue.int 5), Error := none }] ∧
      GoValue.reflectValue GoType.int (GoValue.int 5) ≠ GoValue.int 5 := by
  refine ⟨rfl, ?_, ⟨_, rfl⟩, ?_, ?_⟩ <;> decide

/-- C3: `calc.Oops` has the value-then-error shape and returns `(0, err)` with a non-nil error;
the one response written carries the error object together with a result that is not the nil
interface, so the result field is not left out. For `calc.Fail`, of the error-only shape, the
response carries the error object and no result. -/
theorem ServeHTTP_Oops_result_present :
    (∃ r, responses (ServeHTTP sampleEnv calcServer bg (bareRequest "calc.Oops" (some 7))
        none).trace = [r] ∧ r.Error = some { Code := 1, Message := "boom" } ∧
      r.Result ≠ GoValue.nil) ∧
      (calcServer.methods "calc.Oops").map (fun d => (d.valOut, d.errOut)) = some (0, 1) ∧
      responses (ServeHTTP sampleEnv calcServer bg (bareRequest "calc.Fail" (some 7))
        none).trace =
        [{ Jsonrpc := "2.0", ID := 7, Result := GoValue.nil
           Error := some { Code := 1, Message := "boom" } }] :=
  ⟨⟨{ Jsonrpc := "2.0", ID := 7, Result := GoValue.reflectValue GoType.int (GoValue.int 0)
      Error := some { Code := 1, Message := "boom" } }, by decide, rfl, by decide⟩,
    rfl, by decide⟩

/-- C7: the request `calc.Add` without params (two are declared) and with id 7 is answered with
the error code 32602, the value of `rpcInvalidParams`, which is positive and is not -32602;
the two other constants are -32700 and -32601. -/
theorem ServeHTTP_invalid_params_code :
    responses (ServeHTTP sampleEnv calcServer bg (bareRequest "calc.Add" (some 7))
        none).trace =
        [{ Jsonrpc := "2.0", ID := 7, Result := GoValue.nil
           Error := some { Code := 32602, Message := "wrong params count" } }] ∧
      rpcInvalidParams = 32602 ∧ rpcInvalidParams ≠ -32602 ∧ 0 < rpcInvalidParams ∧
      rpcParseError = -32700 ∧ rpcMethodNotFound = -32601 := by
  refine ⟨?_, ?_, ?_, ?_, ?_, ?_⟩ <;> decide

/-- C8: when decoding the envelope returned an error and left id 7 and the method `calc.Five`
in the request, `ServeHTTP` reports the parse error and goes on: it looks the method up,
invokes the operation and writes a second response. When the failed decode left the request
empty, it still looks up the empty method name and calls `rpcError` a second time. -/
theorem ServeHTTP_decode_error_falls_through :
    lookups (ServeHTTP sampleEnv calcServer bg (bareRequest "calc.Five" (some 7))
        (some "json: cannot unmarshal number")).trace = ["calc.Five"] ∧
      (invocations (ServeHTTP sampleEnv calcServer bg (bareRequest "calc.Five" (some 7))
        (some "json: cannot unmarshal number")).trace).length = 1 ∧
      responses (ServeHTTP sampleEnv calcServer bg (bareRequest "calc.Five" (some 7))
        (some "json: cannot unmarshal number")).trace =
        [{ Jsonrpc := "2.0", ID := 7, Result := GoValue.nil
           Error := some { Code := -32700, Message := "json: cannot unmarshal number" } },
         { Jsonrpc := "2.0", ID := 7
           Result := GoValue.reflectValue GoType.int (GoValue.int 5), Error := none }] ∧
      (ServeHTTP sampleEnv calcServer bg
        { Jsonrpc := "", ID := none, Method := "", Params := [] }
        (some "unexpected end of JSON input")).trace =
        [Event.writeHeader 500, Event.lookup "", Event.writeHeader 500] := by
  refine ⟨?_, ?_, ?_, ?_⟩ <;> decide

/-! ## Registration: arity, frame, handler checks -/

theorem key_inj (namespace_ a b : String)
    (h : namespace_ ++ "." ++ a = namespace_ ++ "." ++ b) : a = b := by
  have hd := congrArg String.data h
  simp only [String.data_append, List.append_assoc] at hd
  exact String.ext (List.append_cancel_left (List.append_cancel_left hd))

theorem fillRecvs_eq_take (ft : FuncType) :
    ∀ (n : Nat) (l : List GoType), fillRecvs ft n = .ok l → l = ft.ins.take n := by
  intro n
  induction n with
  | zero =>
    intro l h
    simp [fillRecvs] at h
    subst h
    rfl
  | succ n ih =>
    intro l h
    unfold fillRecvs at h
    split at h
    · cases h
    · rename_i recvs hrec
      have hr := ih recvs hrec
      unfold FuncType.In idx at h
      have hneg : ¬ ((n : Int) < 0) := by omega
      simp only [hneg, if_false, Int.toNat_ofNat] at h
      split at h
      · cases h
      · rename_i t ht
        split at ht
        · cases ht
        · rename_i t0 ht0
          cases ht
          cases h
          rw [List.get?_eq_getElem?] at ht0
          rw [List.take_succ, ht0, hr]
          rfl

theorem detectCtx_eq (recv : GoType) (m : Method) :
    detectCtx (m.Type recv) = .ok (if m.params.head? = some contextType then 1 else 0) := by
  unfold detectCtx FuncType.NumIn FuncType.In idx Method.Type
  cases hp : m.params with
  | nil => simp
  | cons t ts =>
    have hge : ((recv :: t :: ts).length : Int) ≥ 2 := by
      simp only [List.length_cons]
      omega
    simp only [hge, if_true]
    by_cases ht : t = contextType <;> simp [ht]

/-- What the loop body of `Regiter` records for one method. -/
theorem describe_fields (h : Handler) (m : Method) (d : rpcHandler)
    (hd : describe h m = .ok d) :
    d.hasCtx = (if m.params.head? = some contextType then 1 else 0) ∧
      d.nParams = (m.Type h.typ).NumIn - 1 - d.hasCtx ∧
      d.paramsReceiver = (h.typ :: m.params).take d.nParams.toNat ∧
      d.reciver = Value.mk h.typ h.val ∧ d.handleFunc = m.Func h.typ := by
  have hfin : ∀ c : Int,
      (if (m.Type h.typ).NumIn - 1 - c < 0 then
          (Except.error "makeslice: len out of range" : Except String rpcHandler)
        else
          match fillRecvs (m.Type h.typ) ((m.Type h.typ).NumIn - 1 - c).toNat with
          | .error m => .error m
          | .ok recvs =>
            match processOutput (m.Type h.typ) with
            | .error m => .error m
            | .ok (valOut, errOut, _) =>
              .ok { paramsReceiver := recvs
                    nParams := (m.Type h.typ).NumIn - 1 - c
                    reciver := Value.mk h.typ h.val
                    handleFunc := m.Func h.typ
                    hasCtx := c
                    errOut := errOut
                    valOut := valOut }) = .ok d →
      d.hasCtx = c ∧ d.nParams = (m.Type h.typ).NumIn - 1 - d.hasCtx ∧
        d.paramsReceiver = (h.typ :: m.params).take d.nParams.toNat ∧
        d.reciver = Value.mk h.typ h.val ∧ d.handleFunc = m.Func h.typ := by
    intro c hc
    split at hc
    · cases hc
    · split at hc
      · cases hc
      · rename_i recvs hrec
        split at hc
        · cases hc
        · cases hc
          exact ⟨rfl, rfl, fillRecvs_eq_take _ _ _ hrec, rfl, rfl⟩
  unfold describe at hd
  simp only [detectCtx_eq] at hd
  exact hfin _ hd

/-- Every entry of the registry after the loop of `Regiter` was there before or is the
descriptor built for one of the methods, under its qualified name. -/
theorem registerMethods_lookup (namespace_ : String) (h : Handler) :
    ∀ (ms : List Method) (s : RPCServer) (k : String) (d : rpcHandler),
      (registerMethods s namespace_ h ms).1.methods k = some d →
      s.methods k = some d ∨
        ∃ m ∈ ms, k = namespace_ ++ "." ++ m.Name ∧ describe h m = .ok d := by
  intro ms
  induction ms with
  | nil =>
    intro s k d hk
    exact Or.inl hk
  | cons m rest ih =>
    intro s k d hk
    unfold registerMethods at hk
    split at hk
    · exact Or.inl hk
    · rename_i d0 hd0
      rcases ih _ k d hk with hprev | ⟨m1, hm1, hk1, hd1⟩
      · unfold RPCServer.store at hprev
        simp only at hprev
        split at hprev
        · rename_i hkey
          have heq := Option.some.inj hprev
          subst heq
          exact Or.inr ⟨m, List.mem_cons_self _ _, hkey, hd0⟩
        · exact Or.inl hprev
      · exact Or.inr ⟨m1, List.mem_cons_of_mem _ hm1, hk1, hd1⟩

theorem Regiter_lookup (s : RPCServer) (namespace_ : String) (h : Handler) (k : String)
    (d : rpcHandler) (hk : (Regiter s namespace_ (some h)).1.methods k = some d) :
    s.methods k = some d ∨
      ∃ m ∈ h.methods, k = namespace_ ++ "." ++ m.Name ∧ describe h m = .ok d := by
  unfold Regiter at hk
  simp only at hk
  split at hk
  · split at hk
    · exact Or.inl hk
    · exact registerMethods_lookup namespace_ h h.methods s k d hk
  · exact Or.inl hk

/-- C11: every descriptor a `Regiter` call stores is the descriptor of one exposed method of the
handler, under its qualified name; its `hasCtx` is 1 exactly when the first declared parameter
after the receiver is the context type, and 0 otherwise; its `nParams` is the number of declared
inputs (receiver included) minus one, minus `hasCtx`. -/
theorem Regiter_arity (s : RPCServer) (namespace_ : String) (h : Handler) (k : String)
    (d : rpcHandler) (hk : (Regiter s namespace_ (some h)).1.methods k = some d)
    (hnew : s.methods k ≠ some d) :
    ∃ m ∈ h.methods, k = namespace_ ++ "." ++ m.Name ∧
      (d.hasCtx = 1 ↔ m.params.head? = some contextType) ∧
      (d.hasCtx ≠ 1 → d.hasCtx = 0) ∧
      (m.Type h.typ).NumIn = (m.params.length : Int) + 1 ∧
      d.nParams = (m.Type h.typ).NumIn - 1 - d.hasCtx := by
  rcases Regiter_lookup s namespace_ h k d hk with hold | ⟨m, hm, hkey, hd⟩
  · exact absurd hold hnew
  · obtain ⟨hctx, hn, _⟩ := describe_fields h m d hd
    refine ⟨m, hm, hkey, ?_, ?_, ?_, hn⟩
    · rw [hctx]
      by_cases hc : m.params.head? = some contextType <;> simp [hc]
    · rw [hctx]
      by_cases hc : m.params.head? = some contextType <;> simp [hc]
    · simp [Method.Type, FuncType.NumIn]

/-- C11, on the handler `*Box`: `Get(ctx context.Context, key int)` is stored under `box.Get`
with `hasCtx = 1` and `nParams = 3 - 1 - 1`. -/
theorem Regiter_arity_witness :
    ∃ d, boxServer.methods "box.Get" = some d ∧ d.hasCtx = 1 ∧ d.nParams = 1 ∧
      ∃ m ∈ boxHandler.methods, "box.Get" = "box" ++ "." ++ m.Name ∧
        (d.hasCtx = 1 ↔ m.params.head? = some contextType) ∧
        (d.hasCtx ≠ 1 → d.hasCtx = 0) ∧
        (m.Type boxHandler.typ).NumIn = (m.params.length : Int) + 1 ∧
        d.nParams = (m.Type boxHandler.typ).NumIn - 1 - d.hasCtx :=
  ⟨_, rfl, rfl, rfl,
    Regiter_arity NewServer "box" boxHandler "box.Get" _ rfl (by simp [NewServer])⟩

/-- C12: the descriptor does not hold the declared parameter types. For
`Get(ctx context.Context, key int)` of `*Box` the declared type at position 0 after receiver and
context is `int` (input 2 of the method type), and the descriptor holds `*Box`, the receiver
type; for `Add(a, b int)` of `*Calc` it holds `*Calc` and `int`. In general position `i` of the
list is input `i` of the method type, so that position 0, when there is one, is the receiver
type. -/
theorem Regiter_paramsReceiver_shifted :
    (boxServer.methods "box.Get").map (fun d => (d.paramsReceiver, d.nParams, d.hasCtx))
        = some ([GoType.ptr (GoType.struct "Box")], 1, 1) ∧
      boxHandler.methods.head?.map (fun m => idx (m.Type boxHandler.typ).ins (0 + 1 + 1))
        = some (some GoType.int) ∧
      (calcServer.methods "calc.Add").map (fun d => d.paramsReceiver)
        = some [GoType.ptr (GoType.struct "Calc"), GoType.int] ∧
      ∀ (h : Handler) (m : Method) (d : rpcHandler), describe h m = .ok d →
        (∀ i : Nat, (i : Int) < d.nParams →
          d.paramsReceiver.get? i = (m.Type h.typ).ins.get? i) ∧
        (0 < d.nParams → d.paramsReceiver.get? 0 = some h.typ) := by
  refine ⟨rfl, rfl, rfl, ?_⟩
  intro h m d hd
  obtain ⟨_, _, hrecv, _⟩ := describe_fields h m d hd
  have hget : ∀ i : Nat, (i : Int) < d.nParams →
      d.paramsReceiver.get? i = (h.typ :: m.params).get? i := by
    intro i hi
    rw [hrecv, List.get?_eq_getElem?, List.get?_eq_getElem?, List.getElem?_take]
    have hlt : i < d.nParams.toNat := by omega
    simp [hlt]
  refine ⟨hget, ?_⟩
  intro hpos
  have h0 := hget 0 (by simpa using hpos)
  rw [h0]
  rfl

/-- C16: a nil handler, a handler that is not a pointer, and a pointer to something that is not
a struct make `Regiter` panic with the registry unchanged; for a pointer to a struct `Regiter`
goes on to its loop over the methods. -/
theorem Regiter_handler_checks (s : RPCServer) (namespace_ : String) :
    ((Regiter s namespace_ none).1 = s ∧ (Regiter s namespace_ none).2 ≠ none) ∧
      (∀ h : Handler, h.typ.Kind ≠ Kind.Ptr →
        Regiter s namespace_ (some h) = (s, some "handler should be a pointer")) ∧
      (∀ (h : Handler) (elem : GoType), h.typ = GoType.ptr elem → elem.Kind ≠ Kind.Struct →
        Regiter s namespace_ (some h) = (s, some "handler should be a struct")) ∧
      (∀ (h : Handler) (elem : GoType), h.typ = GoType.ptr elem → elem.Kind = Kind.Struct →
        Regiter s namespace_ (some h) = registerMethods s namespace_ h h.methods) := by
  refine ⟨⟨rfl, by simp [Regiter]⟩, ?_, ?_, ?_⟩
  · intro h hk
    unfold Regiter
    cases ht : h.typ <;> simp_all [GoType.Kind]
  · intro h elem ht hk
    unfold Regiter
    simp [ht, hk]
  · intro h elem ht hk
    unfold Regiter
    simp [ht, hk]

/-- C19: in every registry built from `NewServer` by `Regiter` calls, every stored descriptor has
`hasCtx` 0 or 1, `nParams` at least 0, as many parameter types as `nParams`,
`nParams + hasCtx + 1` equal to the number of inputs of `handleFunc`, `valOut` and `errOut` each
-1 or an index below the number of outputs, and `valOut = errOut` only when both are -1. -/
theorem Reachable_descriptors (s : RPCServer) (k : String) (d : rpcHandler)
    (hs : Reachable s) (hk : s.methods k = some d) :
    (d.hasCtx = 0 ∨ d.hasCtx = 1) ∧ 0 ≤ d.nParams ∧
      (d.paramsReceiver.length : Int) = d.nParams ∧
      d.nParams + d.hasCtx + 1 = d.handleFunc.typ.NumIn ∧
      (d.valOut = -1 ∨ (0 ≤ d.valOut ∧ d.valOut < d.handleFunc.typ.NumOut)) ∧
      (d.errOut = -1 ∨ (0 ≤ d.errOut ∧ d.errOut < d.handleFunc.typ.NumOut)) ∧
      (d.valOut = d.errOut → d.valOut = -1 ∧ d.errOut = -1) := by
  have hwf := hs.wf k d hk
  exact ⟨hwf.hasCtx, hwf.nParams, hwf.recvLen, hwf.numIn, hwf.valOut, hwf.errOut, hwf.distinct⟩

/-- C19, on the registry holding `*Calc` and then `*Box`: the descriptor of `box.Get`. -/
theorem Reachable_descriptors_witness :
    ∃ d, (Regiter calcServer "box" (some boxHandler)).1.methods "box.Get" = some d ∧
      (d.hasCtx = 0 ∨ d.hasCtx = 1) ∧ 0 ≤ d.nParams ∧
      (d.paramsReceiver.length : Int) = d.nParams ∧
      d.nParams + d.hasCtx + 1 = d.handleFunc.typ.NumIn ∧
      (d.valOut = -1 ∨ (0 ≤ d.valOut ∧ d.valOut < d.handleFunc.typ.NumOut)) ∧
      (d.errOut = -1 ∨ (0 ≤ d.errOut ∧ d.errOut < d.handleFunc.typ.NumOut)) ∧
      (d.valOut = d.errOut → d.valOut = -1 ∧ d.errOut = -1) :=
  ⟨_, rfl, Reachable_descriptors (Regiter calcServer "box" (some boxHandler)).1 "box.Get" _
    (Reachable.regiter calcServer "box" (some boxHandler)
      (Reachable.regiter NewServer "calc" (some calcHandler) Reachable.new)) rfl⟩

/-! ## Registration: frame -/

theorem registerMethods_frame (namespace_ : String) (h : Handler) :
    ∀ (ms : List Method) (s : RPCServer) (k : String),
      (∀ m ∈ ms, k ≠ namespace_ ++ "." ++ m.Name) →
      (registerMethods s namespace_ h ms).1.methods k = s.methods k := by
  intro ms
  induction ms with
  | nil =>
    intro s k _
    rfl
  | cons m rest ih =>
    intro s k hk
    unfold registerMethods
    split
    · rfl
    · rename_i d0 hd0
      rw [ih _ k (fun m1 hm1 => hk m1 (List.mem_cons_of_mem _ hm1))]
      have hne := hk m (List.mem_cons_self _ _)
      simp [RPCServer.store, hne]

theorem registerMethods_stored (namespace_ : String) (h : Handler) :
    ∀ (ms : List Method) (s : RPCServer), (registerMethods s namespace_ h ms).2 = none →
      ∀ m ∈ ms, ∃ m1 ∈ ms, m1.Name = m.Name ∧ ∃ d, describe h m1 = .ok d ∧
        (registerMethods s namespace_ h ms).1.methods (namespace_ ++ "." ++ m.Name) = some d := by
  intro ms
  induction ms with
  | nil =>
    intro s _ m hm
    cases hm
  | cons m0 rest ih =>
    intro s hnone m hm
    unfold registerMethods at hnone ⊢
    cases hd0 : describe h m0 with
    | error e =>
      rw [hd0] at hnone
      cases hnone
    | ok d0 =>
      rw [hd0] at hnone
      simp only at hnone ⊢
      by_cases hex : ∃ m1 ∈ rest, m1.Name = m.Name
      · obtain ⟨m1, hm1, hname⟩ := hex
        obtain ⟨m2, hm2, hname2, d, hd, hlook⟩ := ih _ hnone m1 hm1
        rw [hname] at hlook
        exact ⟨m2, List.mem_cons_of_mem _ hm2, hname2.trans hname, d, hd, hlook⟩
      · have hm0 : m = m0 := by
          rcases List.mem_cons.mp hm with heq | hmem
          · exact heq
          · exact absurd ⟨m, hmem, rfl⟩ hex
        subst hm0
        refine ⟨m, List.mem_cons_self _ _, rfl, d0, hd0, ?_⟩
        rw [registerMethods_frame namespace_ h rest _ _ ?_]
        · simp [RPCServer.store]
        · intro m1 hm1 hkey
          exact hex ⟨m1, hm1, (key_inj namespace_ _ _ hkey).symm⟩

/-- C15: a `Regiter` call leaves every key that is not `namespace + "." + M`, for an exposed
method `M` of the handler, mapped to what it was mapped to before; when the call does not panic,
each such key is mapped to the descriptor built from this handler for the method of that name,
whatever was stored under the key before. -/
theorem Regiter_frame (s : RPCServer) (namespace_ : String) (handler : Option Handler) :
    (∀ k : String,
        (∀ h, handler = some h → ∀ m ∈ h.methods, k ≠ namespace_ ++ "." ++ m.Name) →
        (Regiter s namespace_ handler).1.methods k = s.methods k) ∧
      (∀ h, handler = some h → (Regiter s namespace_ handler).2 = none →
        ∀ m ∈ h.methods, ∃ m1 ∈ h.methods, m1.Name = m.Name ∧ ∃ d, describe h m1 = .ok d ∧
          (Regiter s namespace_ handler).1.methods (namespace_ ++ "." ++ m.Name) = some d) ∧
      (∀ h, handler = some h → (Regiter s namespace_ handler).2 = none →
        (h.methods.map (fun m => m.Name)).Nodup →
        ∀ m ∈ h.methods, ∃ d, describe h m = .ok d ∧
          (Regiter s namespace_ handler).1.methods (namespace_ ++ "." ++ m.Name) = some d) := by
  have hloop : ∀ h : Handler, (Regiter s namespace_ (some h)).2 = none →
      Regiter s namespace_ (some h) = registerMethods s namespace_ h h.methods := by
    intro h hnone
    unfold Regiter at hnone ⊢
    simp only at hnone ⊢
    split
    · rename_i elem ht
      rw [ht] at hnone
      simp only at hnone
      split
      · rename_i hk
        simp [hk] at hnone
      · rfl
    · rename_i hnp
      split at hnone
      · rename_i elem ht
        exact absurd ht (hnp elem)
      · cases hnone
  have hstored : ∀ h, handler = some h → (Regiter s namespace_ handler).2 = none →
      ∀ m ∈ h.methods, ∃ m1 ∈ h.methods, m1.Name = m.Name ∧ ∃ d, describe h m1 = .ok d ∧
        (Regiter s namespace_ handler).1.methods (namespace_ ++ "." ++ m.Name) = some d := by
    intro h hh hnone m hm
    subst hh
    have hl := hloop h hnone
    rw [hl] at hnone ⊢
    exact registerMethods_stored namespace_ h h.methods s hnone m hm
  refine ⟨?_, hstored, ?_⟩
  · intro k hk
    cases handler with
    | none => rfl
    | some h =>
      unfold Regiter
      simp only
      split
      · split
        · rfl
        · exact registerMethods_frame namespace_ h h.methods s k (hk h rfl)
      · rfl
  · intro h hh hnone hnd m hm
    obtain ⟨m1, hm1, hname, d, hd, hlook⟩ := hstored h hh hnone m hm
    have heq : m1 = m := List.inj_on_of_nodup_map hnd hm1 hm hname
    subst heq
    exact ⟨d, hd, hlook⟩

/-! ## Dispatch: the shape of a trace -/

theorem rpcError_eq_append (E : Env) (w : List Event) (r : request) (code : Int)
    (err : String) : rpcError E w r code err = w ++ rpcError E [] r code err := by
  unfold rpcError
  cases r.ID <;> simp

theorem ParamDecodes.none_decoded (h : rpcHandler) (req : request) (lo hi : Nat) :
    ParamDecodes h req [] lo hi := by
  intro e he
  cases he

theorem ParamDecodes.one_decoded (h : rpcHandler) (req : request) (i hi : Nat) (t : GoType)
    (p : param) (hlt : i < hi) (ht : h.paramsReceiver.get? i = some t)
    (hp : req.Params.get? i = some p) :
    ParamDecodes h req [Event.decode i t p.data] i hi := by
  intro e he
  rw [List.mem_singleton] at he
  exact ⟨i, t, p, he, Nat.le_refl i, hlt, ht, hp⟩

theorem ParamDecodes.only {h : rpcHandler} {req : request} {ds : List Event} {lo hi : Nat}
    (hds : ParamDecodes h req ds lo hi) : OnlyDecodes ds lo hi := by
  intro e he
  obtain ⟨j, t, p, hj, hlo, hhi, _, _⟩ := hds e he
  exact ⟨j, t, p.data, hj, hlo, hhi⟩

theorem ParamOutcome.prepend {E : Env} {h : rpcHandler} {req : request} {w : List Event}
    {i hi : Nat} {t : GoType} {p : param} {r : Flow (List Value)} (hlt : i < hi)
    (ht : h.paramsReceiver.get? i = some t) (hp : req.Params.get? i = some p)
    (hr : ParamOutcome E h req (w ++ [Event.decode i t p.data]) (i + 1) hi r) :
    ParamOutcome E h req w i hi r := by
  have hcons : ∀ ds, ParamDecodes h req ds (i + 1) hi →
      ParamDecodes h req (Event.decode i t p.data :: ds) i hi := by
    intro ds hds e he
    rcases List.mem_cons.mp he with he | he
    · exact ⟨i, t, p, he, Nat.le_refl i, hlt, ht, hp⟩
    · obtain ⟨j, t1, p1, hj, hlo, hrest⟩ := hds e he
      exact ⟨j, t1, p1, hj, by omega, hrest⟩
  cases r with
  | next a w1 =>
    obtain ⟨ds, hw, hds⟩ := hr
    exact ⟨Event.decode i t p.data :: ds, by simp [hw], hcons ds hds⟩
  | ret w1 =>
    obtain ⟨ds, msg, hw, hds⟩ := hr
    exact ⟨Event.decode i t p.data :: ds, msg, by simp [hw], hcons ds hds⟩
  | panic m w1 =>
    obtain ⟨ds, hw, hds⟩ := hr
    exact ⟨Event.decode i t p.data :: ds, by simp [hw], hcons ds hds⟩

/-- The decode loop decodes, at each position, the bytes held by the box of the request at that
position into the type the descriptor holds there. -/
theorem decodeParams_params (E : Env) (h : rpcHandler) (req : request) :
    ∀ (k i : Nat) (cp : List Value) (w : List Event),
      ParamOutcome E h req w i (i + k) (decodeParams E h req k i cp w) := by
  intro k
  induction k with
  | zero =>
    intro i cp w
    exact ⟨[], by simp, ParamDecodes.none_decoded _ _ _ _⟩
  | succ k ih =>
    intro i cp w
    rw [decodeParams]
    split
    · exact ⟨[], by simp, ParamDecodes.none_decoded _ _ _ _⟩
    · rename_i t ht
      split
      · exact ⟨[], by simp, ParamDecodes.none_decoded _ _ _ _⟩
      · rename_i p hp
        simp only
        split
        · rename_i err herr
          refine ⟨[Event.decode i t p.data], err, ?_,
            ParamDecodes.one_decoded _ _ _ _ _ _ (by omega) ht hp⟩
          rw [rpcError_eq_append]
        · rename_i v hv
          split
          · exact ⟨[Event.decode i t p.data], rfl,
              ParamDecodes.one_decoded _ _ _ _ _ _ (by omega) ht hp⟩
          · rename_i cp1 hcp1
            have hrec := ih (i + 1) cp1 (w ++ [Event.decode i t p.data])
            have heq : i + 1 + k = i + (k + 1) := by omega
            rw [heq] at hrec
            exact ParamOutcome.prepend (by omega) ht hp hrec

/-- Every trace of `ServeHTTP` is the preamble, then decodes of the payloads of the request into
the types the resolved descriptor holds, then one of the four endings of `Tail`. -/
theorem ServeHTTP_shape (E : Env) (s : RPCServer) (ctx : GoValue) (req : request)
    (derr : Option String) :
    ∃ ds tail, (ServeHTTP E s ctx req derr).trace = preamble E req derr ++ ds ++ tail ∧
      (∀ e ∈ ds, ∃ h, s.methods req.Method = some h ∧ ∃ j t p, e = Event.decode j t p.data ∧
        h.paramsReceiver.get? j = some t ∧ req.Params.get? j = some p) ∧
      Tail E req tail := by
  have hnil : ∀ e ∈ ([] : List Event), ∃ h, s.methods req.Method = some h ∧
      ∃ j t p, e = Event.decode j t p.data ∧
        h.paramsReceiver.get? j = some t ∧ req.Params.get? j = some p := by
    intro e he
    cases he
  unfold ServeHTTP preamble
  simp only
  split
  · refine ⟨[], _, ?_, hnil, Tail.error rpcMethodNotFound "Method not found"⟩
    rw [rpcError_eq_append, List.append_nil]
  · rename_i h hh
    have hof : ∀ ds lo hi, ParamDecodes h req ds lo hi →
        ∀ e ∈ ds, ∃ h, s.methods req.Method = some h ∧
          ∃ j t p, e = Event.decode j t p.data ∧
            h.paramsReceiver.get? j = some t ∧ req.Params.get? j = some p := by
      intro ds lo hi hds e he
      obtain ⟨j, t, p, hj, _, _, ht, hp⟩ := hds e he
      exact ⟨h, hh, j, t, p, hj, ht, hp⟩
    split
    · refine ⟨[], _, ?_, hnil, Tail.error rpcInvalidParams "wrong params count"⟩
      rw [rpcError_eq_append, List.append_nil]
    · split
      · exact ⟨[], [], by simp, hnil, Tail.stop⟩
      · rename_i cp0 hcp0
        have ho := decodeParams_params E h req h.nParams.toNat 0 cp0 (preamble E req derr)
        unfold preamble at ho
        split
        · rename_i m w1 hd
          rw [hd] at ho
          obtain ⟨ds, hw, hds⟩ := ho
          exact ⟨ds, [], by simp [hw], hof _ _ _ hds, Tail.stop⟩
        · rename_i w1 hd
          rw [hd] at ho
          obtain ⟨ds, msg, hw, hds⟩ := ho
          exact ⟨ds, _, hw, hof _ _ _ hds, Tail.error rpcParseError msg⟩
        · rename_i cp1 w1 hd
          rw [hd] at ho
          obtain ⟨ds, hw, hds⟩ := ho
          split
          · exact ⟨ds, _, by simp only [hw], hof _ _ _ hds, Tail.called cp1 none⟩
          · rename_i callResult hcall
            split
            · exact ⟨ds, _, by simp only [hw], hof _ _ _ hds, Tail.called cp1 (some callResult)⟩
            · split
              · exact ⟨ds, _, by simp only [hw], hof _ _ _ hds,
                  Tail.called cp1 (some callResult)⟩
              · rename_i resp hresp
                refine ⟨ds, _, ?_, hof _ _ _ hds, Tail.answered cp1 callResult resp⟩
                simp only [hw, List.append_assoc, List.singleton_append]

theorem decode_mem_rpcError (E : Env) (w : List Event) (r : request) (code : Int)
    (err : String) (i : Nat) (t : GoType) (data : List Byte)
    (h : Event.decode i t data ∈ rpcError E w r code err) : Event.decode i t data ∈ w := by
  unfold rpcError at h
  cases hid : r.ID <;> simp [hid] at h <;> exact h

theorem Tail.no_decode {E : Env} {req : request} {tail : List Event} (ht : Tail E req tail)
    (i : Nat) (t : GoType) (data : List Byte) : Event.decode i t data ∉ tail := by
  intro hmem
  cases ht with
  | stop => cases hmem
  | error code msg =>
    have hc := decode_mem_rpcError E [] req code msg i t data hmem
    cases hc
  | called args res =>
    rw [List.mem_singleton] at hmem
    cases hmem
  | answered args res resp =>
    simp at hmem

theorem preamble_no_decode (E : Env) (req : request) (derr : Option String) (i : Nat)
    (t : GoType) (data : List Byte) : Event.decode i t data ∉ preamble E req derr := by
  intro hmem
  unfold preamble at hmem
  rcases List.mem_append.mp hmem with hc | hc
  · cases derr with
    | none => cases hc
    | some err =>
      have hc1 := decode_mem_rpcError E [] req rpcParseError err i t data hc
      cases hc1
  · rw [List.mem_singleton] at hc
    cases hc

/-! ## The parameter box -/

/-- C18: `param.UnmarshalJSON(d)` returns no error, leaves in the box a copy of `d` (same length,
same bytes) and does not touch the typed value; and every payload `ServeHTTP` decodes at a
position `i` is the bytes held by the box `req.Params[i]`. -/
theorem param_UnmarshalJSON_captures :
    (∀ (p : param) (d : List Byte),
        (p.UnmarshalJSON d).2 = none ∧ (p.UnmarshalJSON d).1.data = d ∧
          (p.UnmarshalJSON d).1.data.length = d.length ∧ (p.UnmarshalJSON d).1.val = p.val) ∧
      ∀ (E : Env) (s : RPCServer) (ctx : GoValue) (req : request) (derr : Option String)
        (i : Nat) (t : GoType) (data : List Byte),
        Event.decode i t data ∈ (ServeHTTP E s ctx req derr).trace →
        ∃ p, req.Params.get? i = some p ∧ data = p.data := by
  constructor
  · intro p d
    have hcopy : copy (List.replicate d.length 0) d = d := by
      simp [copy]
    simp [param.UnmarshalJSON, hcopy]
  · intro E s ctx req derr i t data hmem
    obtain ⟨ds, tail, htrace, hds, htail⟩ := ServeHTTP_shape E s ctx req derr
    rw [htrace] at hmem
    rcases List.mem_append.mp hmem with hmem | hmem
    · rcases List.mem_append.mp hmem with hmem | hmem
      · exact absurd hmem (preamble_no_decode E req derr i t data)
      · obtain ⟨h, _, j, t1, p, he, _, hp⟩ := hds _ hmem
        cases he
        exact ⟨p, hp, rfl⟩
    · exact absurd hmem (htail.no_decode i t data)

/-! ## The dispatcher: transport status and number of responses -/

theorem OnlyDecodes.quiet {ds : List Event} {lo hi : Nat} (h : OnlyDecodes ds lo hi) :
    Quiet ds := by
  intro e he
  obtain ⟨j, t, d, hj, _⟩ := h e he
  subst hj
  exact ⟨fun status hc => (by cases hc), fun resp hc => (by cases hc)⟩

theorem writtenUnder_quiet :
    ∀ (a b : List Event) (st : Option Int), Quiet a →
      writtenUnder st (a ++ b) = writtenUnder st b := by
  intro a
  induction a with
  | nil =>
    intro b st _
    rfl
  | cons e es ih =>
    intro b st hq
    have hes : Quiet es := fun e1 he1 => hq e1 (List.mem_cons_of_mem _ he1)
    have he := hq e (List.mem_cons_self _ _)
    cases e with
    | lookup m => cases st <;> simp [writtenUnder, ih _ _ hes]
    | decode i t d => cases st <;> simp [writtenUnder, ih _ _ hes]
    | call args res => cases st <;> simp [writtenUnder, ih _ _ hes]
    | writeHeader status => exact absurd rfl (he.1 status)
    | write resp => exact absurd rfl (he.2 resp)

/-- For a decoded request, what the trace shows of invocations, responses and statuses is what
its ending shows. -/
theorem ServeHTTP_decoded_tail (E : Env) (s : RPCServer) (ctx : GoValue) (req : request) :
    ∃ tail, Tail E req tail ∧
      invocations (ServeHTTP E s ctx req none).trace = invocations tail ∧
      responses (ServeHTTP E s ctx req none).trace = responses tail ∧
      writtenUnder none (ServeHTTP E s ctx req none).trace = writtenUnder none tail := by
  obtain ⟨ds, tail, htrace, hds, htail⟩ := ServeHTTP_shape E s ctx req none
  have hod : OnlyDecodes ds 0 req.Params.length := by
    intro e he
    obtain ⟨h, _, j, t, p, hj, _, hp⟩ := hds e he
    refine ⟨j, t, p.data, hj, Nat.zero_le j, ?_⟩
    rcases Nat.lt_or_ge j req.Params.length with hlt | hge
    · exact hlt
    · rw [List.get?_eq_none.mpr hge] at hp
      cases hp
  have hq : Quiet (preamble E req none ++ ds) := by
    intro e he
    rcases List.mem_append.mp he with he | he
    · rw [preamble_none, List.mem_singleton] at he
      subst he
      exact ⟨fun status hc => (by cases hc), fun resp hc => (by cases hc)⟩
    · exact hod.quiet e he
  refine ⟨tail, htail, ?_, ?_, ?_⟩
  · rw [htrace, invocations_append, invocations_append, hod.invocations, preamble_none]
    rfl
  · rw [htrace, responses_append, responses_append, hod.responses, preamble_none]
    rfl
  · rw [htrace, writtenUnder_quiet _ _ _ hq]

/-- C13, as stated, fails: the response to `calc.Five`, a success, is written with no
`WriteHeader` call before it, so under the status 200. -/
theorem ServeHTTP_success_status :
    (ServeHTTP sampleEnv calcServer bg (bareRequest "calc.Five" (some 7)) none).trace =
        [Event.lookup "calc.Five",
         Event.call [Value.mk (GoType.ptr (GoType.struct "Calc"))
             (GoValue.ptr (GoType.struct "Calc") (GoValue.struct "Calc"))]
           (some [Value.mk GoType.int (GoValue.int 5), Value.mk GoType.error GoValue.nil]),
         Event.write { Jsonrpc := "2.0", ID := 7
                       Result := GoValue.reflectValue GoType.int (GoValue.int 5)
                       Error := none }] ∧
      statuses (ServeHTTP sampleEnv calcServer bg (bareRequest "calc.Five" (some 7))
        none).trace = [] ∧
      writtenUnder none (ServeHTTP sampleEnv calcServer bg (bareRequest "calc.Five" (some 7))
        none).trace =
        [(200, { Jsonrpc := "2.0", ID := 7
                 Result := GoValue.reflectValue GoType.int (GoValue.int 5)
                 Error := none })] := by
  refine ⟨?_, ?_, ?_⟩ <;> decide

theorem writtenUnder_fixed :
    ∀ (es : List Event) (st : Int), ∀ p ∈ writtenUnder (some st) es, p.1 = st := by
  intro es
  induction es with
  | nil =>
    intro st p hp
    simp [writtenUnder] at hp
  | cons e es ih =>
    intro st p hp
    cases e with
    | lookup m =>
      simp only [writtenUnder] at hp
      exact ih st p hp
    | decode i t d =>
      simp only [writtenUnder] at hp
      exact ih st p hp
    | call args res =>
      simp only [writtenUnder] at hp
      exact ih st p hp
    | writeHeader status =>
      simp only [writtenUnder] at hp
      exact ih st p hp
    | write resp =>
      simp only [writtenUnder, List.mem_cons] at hp
      rcases hp with hp | hp
      · subst hp
        rfl
      · exact ih st p hp

/-- After a failed envelope decode every response is written under the status 500, which the
first `rpcError` call has fixed. -/
theorem ServeHTTP_undecoded_status (E : Env) (s : RPCServer) (ctx : GoValue) (req : request)
    (err : String) :
    ∀ p ∈ writtenUnder none (ServeHTTP E s ctx req (some err)).trace, p.1 = 500 := by
  obtain ⟨ds, tail, htrace, _, _⟩ := ServeHTTP_shape E s ctx req (some err)
  have hstart : ∃ rest, (ServeHTTP E s ctx req (some err)).trace
      = Event.writeHeader 500 :: rest := by
    rw [htrace]
    unfold preamble rpcError
    cases req.ID <;> simp
  obtain ⟨rest, hrest⟩ := hstart
  rw [hrest]
  intro p hp
  simp only [writtenUnder] at hp
  exact writtenUnder_fixed rest 500 p hp

/-- C13, amended: every response envelope `ServeHTTP` writes is written under the status 500,
with one exception: for a request whose envelope decoded, the response written after the
operation was invoked (a result or an error the operation reported) is written under the status
200, no status having been set. So under 500 go all responses after a failed envelope decode
and all responses written when no operation was invoked (method not found, wrong params count,
parameter decode failure). -/
theorem ServeHTTP_status_by_path (E : Env) (s : RPCServer) (ctx : GoValue) (req : request)
    (derr : Option String) :
    ((derr ≠ none ∨ invocations (ServeHTTP E s ctx req derr).trace = []) →
        ∀ p ∈ writtenUnder none (ServeHTTP E s ctx req derr).trace, p.1 = 500) ∧
      ((derr = none ∧ invocations (ServeHTTP E s ctx req derr).trace ≠ []) →
        ∀ p ∈ writtenUnder none (ServeHTTP E s ctx req derr).trace, p.1 = 200) := by
  cases derr with
  | some err =>
    refine ⟨fun _ => ServeHTTP_undecoded_status E s ctx req err, ?_⟩
    rintro ⟨hc, _⟩
    cases hc
  | none =>
    obtain ⟨tail, htail, hinv, _, hwr⟩ := ServeHTTP_decoded_tail E s ctx req
    rw [hinv, hwr]
    cases htail with
    | stop => simp [writtenUnder]
    | error code msg =>
      unfold rpcError
      cases req.ID <;> simp [writtenUnder, invocations]
    | called args res => simp [writtenUnder, invocations]
    | answered args res resp => simp [writtenUnder, invocations]

/-- C14: when decoding the envelope returned an error and left id 7 and the method `calc.Five`
in the request, `ServeHTTP` writes two response envelopes, the parse error and the result. For
a request whose envelope decoded it writes at most one. -/
theorem ServeHTTP_two_responses :
    (responses (ServeHTTP sampleEnv calcServer bg (bareRequest "calc.Five" (some 7))
        (some "json: cannot unmarshal number")).trace).length = 2 ∧
      ∀ (E : Env) (s : RPCServer) (ctx : GoValue) (req : request),
        (responses (ServeHTTP E s ctx req none).trace).length ≤ 1 := by
  refine ⟨by decide, ?_⟩
  intro E s ctx req
  obtain ⟨tail, htail, _, hresp, _⟩ := ServeHTTP_decoded_tail E s ctx req
  rw [hresp]
  cases htail with
  | stop => simp [responses]
  | error code msg =>
    unfold rpcError
    cases req.ID <;> simp [responses]
  | called args res => simp [responses]
  | answered args res resp => simp [responses]

/-! ## The dispatcher: call assembly -/

theorem setIdx_eq {α : Type} (l l1 : List α) (i : Int) (a : α) (h : setIdx l i a = some l1) :
    0 ≤ i ∧ i.toNat < l.length ∧ l1 = l.set i.toNat a := by
  unfold setIdx at h
  split at h
  · cases h
  · split at h
    · cases h
      exact ⟨by omega, by assumption, rfl⟩
    · cases h

/-- What lines 98 to 102 of `ServeHTTP` leave in the argument vector of a well-formed
descriptor. -/
theorem assemble_args (h : rpcHandler) (ctx : GoValue) (cp : List Value) (hwf : h.WF)
    (hcp : assemble h ctx = .ok cp) :
    (cp.length : Int) = h.nParams + h.hasCtx + 1 ∧ cp.get? 0 = some h.reciver ∧
      (h.hasCtx = 1 → cp.get? 1 = some (ValueOf ctx)) := by
  have hn := hwf.nParams
  have hc := hwf.hasCtx
  unfold assemble make at hcp
  have hneg : ¬ (h.nParams + h.hasCtx + 1 < 0) := by omega
  simp only [hneg, if_false] at hcp
  split at hcp
  · cases hcp
  · rename_i cp0 hcp0
    obtain ⟨_, hlt0, heq0⟩ := setIdx_eq _ _ _ _ hcp0
    have hlen0 : cp0.length = (h.nParams + h.hasCtx + 1).toNat := by
      rw [heq0]
      simp
    have hget0 : cp0.get? 0 = some h.reciver := by
      rw [heq0, List.get?_eq_getElem?]
      simp only [Int.toNat_zero]
      rw [List.getElem?_set_self]
      simpa using hlt0
    split at hcp
    · rename_i hctx
      split at hcp
      · cases hcp
      · rename_i cp1 hcp1
        cases hcp
        obtain ⟨_, hlt1, heq1⟩ := setIdx_eq _ _ _ _ hcp1
        have h1 : (1 : Int).toNat = 1 := rfl
        rw [h1] at hlt1 heq1
        refine ⟨?_, ?_, ?_⟩
        · rw [heq1, List.length_set, hlen0]
          omega
        · rw [heq1, List.get?_eq_getElem?, List.getElem?_set_ne (by omega),
            ← List.get?_eq_getElem?]
          exact hget0
        · intro _
          rw [heq1, List.get?_eq_getElem?, List.getElem?_set_self hlt1]
    · rename_i hctx
      cases hcp
      refine ⟨?_, hget0, fun hc1 => absurd hc1 hctx⟩
      rw [hlen0]
      omega

/-- What the decode loop leaves in the argument vector when control goes on to the call: the
entries below its first position are kept, and the entry for each position it went through is
the pointer returned by `reflect.New` for the type the descriptor holds at that position, pointing
at the decoded value. -/
theorem decodeParams_args (E : Env) (h : rpcHandler) (req : request) (hctx : 0 ≤ h.hasCtx) :
    ∀ (k i : Nat) (cp : List Value) (w : List Event) (cp1 : List Value) (w1 : List Event),
      decodeParams E h req k i cp w = Flow.next cp1 w1 →
      cp1.length = cp.length ∧
        (∀ j : Nat, j < i + 1 + h.hasCtx.toNat → cp1.get? j = cp.get? j) ∧
        ∀ j : Nat, i ≤ j → j < i + k →
          ∃ t p v, h.paramsReceiver.get? j = some t ∧ req.Params.get? j = some p ∧
            E.decode t p.data = .ok v ∧ cp1.get? (j + 1 + h.hasCtx.toNat) = some (New t v) := by
  intro k
  induction k with
  | zero =>
    intro i cp w cp1 w1 hd
    cases hd
    exact ⟨rfl, fun _ _ => rfl, fun j h1 h2 => by omega⟩
  | succ k ih =>
    intro i cp w cp1 w1 hd
    rw [decodeParams] at hd
    split at hd
    · cases hd
    · rename_i t ht
      split at hd
      · cases hd
      · rename_i p hp
        simp only at hd
        split at hd
        · cases hd
        · rename_i v hv
          split at hd
          · cases hd
          · rename_i cp2 hcp2
            obtain ⟨_, hlt, heq⟩ := setIdx_eq _ _ _ _ hcp2
            have hidx : ((i : Int) + 1 + h.hasCtx).toNat = i + 1 + h.hasCtx.toNat := by omega
            rw [hidx] at hlt heq
            obtain ⟨hlen, hkeep, hnew⟩ := ih (i + 1) cp2 _ cp1 w1 hd
            refine ⟨?_, ?_, ?_⟩
            · rw [hlen, heq, List.length_set]
            · intro j hj
              rw [hkeep j (by omega), heq, List.get?_eq_getElem?, List.get?_eq_getElem?,
                List.getElem?_set_ne (by omega)]
            · intro j hij hjk
              rcases Nat.eq_or_lt_of_le hij with hji | hji
              · subst hji
                refine ⟨t, p, v, ht, hp, hv, ?_⟩
                rw [hkeep (i + 1 + h.hasCtx.toNat) (by omega), heq, List.get?_eq_getElem?,
                  List.getElem?_set_self hlt]
              · exact hnew j (by omega) (by omega)

/-- C17: the arguments passed to the operation are not values of its declared parameter types.
For `Merge(other *Box)` and the payload of `mergeRequest`, which decodes into `*Box`, the
argument at index 1 is the pointer returned by `reflect.New`, of type `**Box`, where `*Box` is
declared, and `Call` panics. In general, in a registry built by `Regiter`, the vector passed to
`Call` has length `1 + hasCtx + nParams`, holds the receiver at index 0 and the context at index
1 when `hasCtx = 1`, and at index `1 + hasCtx + i` a pointer to the value decoded from payload
`i`, of type pointer to the type the descriptor holds at `i`. -/
theorem ServeHTTP_call_arguments :
    ServeHTTP sampleEnv boxServer bg mergeRequest none =
        { trace :=
            [Event.lookup "box.Merge",
             Event.decode 0 (GoType.ptr (GoType.struct "Box")) [123, 125],
             Event.call
               [Value.mk (GoType.ptr (GoType.struct "Box"))
                  (GoValue.ptr (GoType.struct "Box") (GoValue.struct "Box")),
                Value.mk (GoType.ptr (GoType.ptr (GoType.struct "Box")))
                  (GoValue.ptr (GoType.ptr (GoType.struct "Box"))
                    (GoValue.ptr (GoType.struct "Box") (GoValue.struct "Box")))]
               none]
          panicked := some "reflect: Call using value of the wrong type" } ∧
      (boxHandler.methods.get? 1).map (fun m => idx (m.Type boxHandler.typ).ins (1 + 0 + 0))
        = some (some (GoType.ptr (GoType.struct "Box"))) ∧
      ∀ (E : Env) (s : RPCServer) (ctx : GoValue) (req : request) (h : rpcHandler)
        (args : List Value) (res : Option (List Value)),
        Reachable s → s.methods req.Method = some h →
        Event.call args res ∈ (ServeHTTP E s ctx req none).trace →
        (args.length : Int) = 1 + h.hasCtx + h.nParams ∧ args.get? 0 = some h.reciver ∧
          (h.hasCtx = 1 → args.get? 1 = some (ValueOf ctx)) ∧
          ∀ i : Nat, (i : Int) < h.nParams →
            ∃ t p v, h.paramsReceiver.get? i = some t ∧ req.Params.get? i = some p ∧
              E.decode t p.data = .ok v ∧
              args.get? (1 + h.hasCtx.toNat + i) = some (Value.mk (GoType.ptr t) (GoValue.ptr t v)) := by
  refine ⟨by decide, rfl, ?_⟩
  intro E s ctx req h args res hs hh hmem
  obtain ⟨h1, cp0, w, hh1, _, hcp0, hd, _⟩ := ServeHTTP_call E s ctx req none args res hmem
  rw [hh] at hh1
  cases hh1
  have hwf := hs.wf _ _ hh
  have hc0 : 0 ≤ h.hasCtx := by
    rcases hwf.hasCtx with hc | hc <;> omega
  obtain ⟨hlen0, hrecv, hctx⟩ := assemble_args h ctx cp0 hwf hcp0
  obtain ⟨hlen, hkeep, hnew⟩ :=
    decodeParams_args E h req hc0 h.nParams.toNat 0 cp0 _ args w hd
  refine ⟨?_, ?_, ?_, ?_⟩
  · rw [hlen]
    omega
  · rw [hkeep 0 (by omega)]
    exact hrecv
  · intro hc1
    rw [hkeep 1 (by omega)]
    exact hctx hc1
  · intro i hi
    have hn := hwf.nParams
    obtain ⟨t, p, v, ht, hp, hv, hget⟩ := hnew i (Nat.zero_le i) (by omega)
    have hidx : 1 + h.hasCtx.toNat + i = i + 1 + h.hasCtx.toNat := by omega
    rw [hidx]
    exact ⟨t, p, v, ht, hp, hv, hget⟩

/-! ## Index safety -/

theorem checkArgs_error_msg :
    ∀ (ts : List GoType) (as : List Value) (m : String), checkArgs ts as = .error m →
      ¬ IndexPanic m := by
  intro ts
  induction ts with
  | nil =>
    intro as m h
    simp [checkArgs] at h
  | cons t ts ih =>
    intro as m h
    cases as with
    | nil =>
      simp only [checkArgs] at h
      cases h
      simp [IndexPanic]
    | cons a rest =>
      cases a with
      | zero =>
        simp only [checkArgs] at h
        cases h
        simp [IndexPanic]
      | mk vt v =>
        simp only [checkArgs] at h
        split at h
        · split at h
          · rename_i m1 hm1
            cases h
            exact ih rest _ hm1
          · cases h
        · cases h
          simp [IndexPanic]

theorem Call_error_msg (f : GoFunc) (args : List Value) (m : String)
    (h : Call f args = .error m) : ¬ IndexPanic m := by
  unfold Call at h
  split at h
  · cases h
    simp [IndexPanic]
  · split at h
    · rename_i m1 hm1
      cases h
      exact checkArgs_error_msg _ _ _ hm1
    · cases h

theorem buildResponse_error_msg (E : Env) (h : rpcHandler) (id : Int) (results : List Value)
    (m : String) (herr : h.errOut ≠ -1 → ∃ rv, idx results h.errOut = some rv)
    (hval : h.valOut ≠ -1 → ∃ rv, idx results h.valOut = some rv)
    (hb : buildResponse E h id results = .error m) : ¬ IndexPanic m := by
  unfold buildResponse at hb
  simp only at hb
  split at hb
  · rename_i m1 hm1
    cases hb
    split at hm1
    · rename_i he
      obtain ⟨rv, hrv⟩ := herr he
      rw [hrv] at hm1
      simp only at hm1
      cases rv with
      | zero =>
        simp only [Value.Interface] at hm1
        cases hm1
        simp [IndexPanic]
      | mk t v =>
        simp only [Value.Interface] at hm1
        split at hm1
        · split at hm1
          · cases hm1
            simp [IndexPanic]
          · cases hm1
        · cases hm1
    · cases hm1
  · rename_i resp hresp
    split at hb
    · rename_i hv
      obtain ⟨rv, hrv⟩ := hval hv
      rw [hrv] at hb
      cases hb
    · cases hb

/-- In a registry built by `Regiter`, a panic of `ServeHTTP` is never an index or a slice
length out of range. -/
theorem ServeHTTP_no_index_panic (E : Env) (s : RPCServer) (ctx : GoValue) (req : request)
    (derr : Option String) (m : String) (hs : Reachable s)
    (hp : (ServeHTTP E s ctx req derr).panicked = some m) : ¬ IndexPanic m := by
  unfold ServeHTTP at hp
  simp only at hp
  split at hp
  · cases hp
  · rename_i h hh
    have hwf := hs.wf _ _ hh
    have hn := hwf.nParams
    have hrl := hwf.recvLen
    split at hp
    · cases hp
    · rename_i hlen
      have hlen1 : (req.Params.length : Int) = h.nParams := by simpa using hlen
      obtain ⟨cp, hcp, hcplen⟩ := assemble_ok h ctx hwf
      rw [hcp] at hp
      simp only at hp
      have hnp := fun w => decodeParams_no_panic E h req h.nParams.toNat (by omega) (by omega)
        (by rcases hwf.hasCtx with hc | hc <;> omega) h.nParams.toNat 0 cp w (by omega)
        (by omega)
      split at hp
      · rename_i m1 w1 hd
        exact absurd hd ((hnp _).1 m1 w1)
      · cases hp
      · rename_i cp1 w1 hd
        split at hp
        · rename_i m1 hcall
          cases hp
          exact Call_error_msg _ _ _ hcall
        · rename_i callResult hcall
          have hl := Call_length _ _ _ hcall
          split at hp
          · cases hp
          · rename_i id hid
            split at hp
            · rename_i m1 hb
              cases hp
              refine buildResponse_error_msg E h id callResult _ ?_ ?_ hb
              · intro he
                rcases hwf.errOut with h1 | ⟨h0, h1⟩
                · exact absurd h1 he
                · exact idx_some _ _ h0 (by omega)
              · intro hv
                rcases hwf.valOut with h1 | ⟨h0, h1⟩
                · exact absurd h1 hv
                · exact idx_some _ _ h0 (by omega)
            · cases hp

theorem processOutput_error_msg (ft : FuncType) (m : String)
    (h : processOutput ft = .error m) : ¬ IndexPanic m := by
  obtain ⟨ins, outs⟩ := ft
  match outs with
  | [] => simp [processOutput, FuncType.NumOut] at h
  | [t] =>
    by_cases ht : t = errorType <;>
      simp [processOutput, FuncType.NumOut, FuncType.Out, idx, ht] at h
  | [t1, t2] =>
    by_cases ht : t2 = errorType
    · simp [processOutput, FuncType.NumOut, FuncType.Out, idx, ht] at h
    · simp [processOutput, FuncType.NumOut, FuncType.Out, idx, ht] at h
      subst h
      simp [IndexPanic]
  | t1 :: t2 :: t3 :: rest =>
    have h0 : ¬ ((rest.length : Int) + 1 + 1 + 1 = 0) := by omega
    have h1 : ¬ ((rest.length : Int) + 1 + 1 + 1 = 1) := by omega
    have h2 : ¬ ((rest.length : Int) + 1 + 1 + 1 = 2) := by omega
    simp [processOutput, FuncType.NumOut, h0, h1, h2] at h
    subst h
    simp [IndexPanic]

/-- In the loop body of `Regiter` the slice length is not negative and every `In(i)` is in
range. -/
theorem describe_in_range (h : Handler) (m : Method) (c : Int)
    (hc : detectCtx (m.Type h.typ) = .ok c) :
    0 ≤ (m.Type h.typ).NumIn - 1 - c ∧
      ∀ i : Nat, (i : Int) < (m.Type h.typ).NumIn - 1 - c →
        ∃ t, (m.Type h.typ).In i = .ok t := by
  have hcc := detectCtx_cases _ _ hc
  have hnin : (m.Type h.typ).NumIn = ((m.Type h.typ).ins.length : Int) := rfl
  have hpos : 1 ≤ (m.Type h.typ).ins.length := by
    simp [Method.Type]
  refine ⟨by omega, ?_⟩
  intro i hi
  obtain ⟨a, ha⟩ := idx_some (m.Type h.typ).ins (i : Int) (by omega) (by omega)
  exact ⟨a, by simp [FuncType.In, ha]⟩

theorem describe_error_msg (h : Handler) (m : Method) (msg : String)
    (hd : describe h m = .error msg) : ¬ IndexPanic msg := by
  obtain ⟨c, hc⟩ := detectCtx_ok (m.Type h.typ)
  have hr := (describe_in_range h m c hc).1
  have hcc := detectCtx_cases _ _ hc
  have hnin : (m.Type h.typ).NumIn = ((m.Type h.typ).ins.length : Int) := rfl
  have hins : ¬ ((m.Type h.typ).NumIn - 1 - c < 0) := by omega
  obtain ⟨l, hl⟩ := fillRecvs_ok (m.Type h.typ) ((m.Type h.typ).NumIn - 1 - c).toNat (by omega)
  unfold describe at hd
  simp only [hc, hins, if_false, hl] at hd
  cases hpo : processOutput (m.Type h.typ) with
  | error e =>
    rw [hpo] at hd
    cases hd
    exact processOutput_error_msg _ _ hpo
  | ok r =>
    obtain ⟨v, e, n⟩ := r
    rw [hpo] at hd
    cases hd

theorem registerMethods_panic_msg (namespace_ : String) (h : Handler) :
    ∀ (ms : List Method) (s : RPCServer) (msg : String),
      (registerMethods s namespace_ h ms).2 = some msg → ¬ IndexPanic msg := by
  intro ms
  induction ms with
  | nil =>
    intro s msg hp
    cases hp
  | cons m rest ih =>
    intro s msg hp
    unfold registerMethods at hp
    split at hp
    · rename_i e he
      cases hp
      exact describe_error_msg h m _ he
    · exact ih _ msg hp

theorem Regiter_panic_msg (s : RPCServer) (namespace_ : String) (handler : Option Handler)
    (msg : String) (hp : (Regiter s namespace_ handler).2 = some msg) : ¬ IndexPanic msg := by
  unfold Regiter at hp
  split at hp
  · cases hp
    simp [IndexPanic]
  · rename_i h
    split at hp
    · split at hp
      · cases hp
        simp [IndexPanic]
      · exact registerMethods_panic_msg namespace_ h h.methods s msg hp
    · cases hp
      simp [IndexPanic]

/-- C20: in a registry built by `Regiter`, no run of `ServeHTTP` panics on an index or a slice
length out of range: for a resolved descriptor and a request with as many params as `nParams`,
`req.Params[i]` and `paramsReceiver[i]` exist for every `i` below `nParams`, the index
`i + 1 + hasCtx` and, when `hasCtx = 1`, the index 1 are within the `nParams + hasCtx + 1`
entries of `callParams`, and `callResult[errOut]` and `callResult[valOut]` exist when the index
is not -1. No `Regiter` call panics on an index either: the slice length
`NumIn - 1 - hasCtx` is not negative and `In(i)` is in range for every `i` below it. -/
theorem index_safety (E : Env) (s : RPCServer) (ctx : GoValue) (req : request)
    (derr : Option String) (hs : Reachable s) :
    (∀ m, (ServeHTTP E s ctx req derr).panicked = some m → ¬ IndexPanic m) ∧
      (∀ h, s.methods req.Method = some h → (req.Params.length : Int) = h.nParams →
        (∀ i : Nat, (i : Int) < h.nParams →
          (∃ p, req.Params.get? i = some p) ∧ (∃ t, h.paramsReceiver.get? i = some t) ∧
            0 ≤ (i : Int) + 1 + h.hasCtx ∧ (i : Int) + 1 + h.hasCtx < h.nParams + h.hasCtx + 1) ∧
        (h.hasCtx = 1 → (1 : Int) < h.nParams + h.hasCtx + 1) ∧
        ∀ args res, Call h.handleFunc args = .ok res →
          (h.errOut ≠ -1 → ∃ rv, idx res h.errOut = some rv) ∧
            (h.valOut ≠ -1 → ∃ rv, idx res h.valOut = some rv)) ∧
      (∀ (namespace_ : String) (handler : Option Handler) (m : String),
        (Regiter s namespace_ handler).2 = some m → ¬ IndexPanic m) ∧
      ∀ (hd : Handler) (mth : Method) (c : Int), detectCtx (mth.Type hd.typ) = .ok c →
        0 ≤ (mth.Type hd.typ).NumIn - 1 - c ∧
          ∀ i : Nat, (i : Int) < (mth.Type hd.typ).NumIn - 1 - c →
            ∃ t, (mth.Type hd.typ).In i = .ok t := by
  refine ⟨fun m hp => ServeHTTP_no_index_panic E s ctx req derr m hs hp, ?_,
    fun ns handler m hp => Regiter_panic_msg s ns handler m hp,
    fun hd mth c hc => describe_in_range hd mth c hc⟩
  intro h hh hlen
  have hwf := hs.wf _ _ hh
  have hn := hwf.nParams
  have hrl := hwf.recvLen
  have hc : 0 ≤ h.hasCtx := by
    rcases hwf.hasCtx with hc | hc <;> omega
  refine ⟨?_, ?_, ?_⟩
  · intro i hi
    have h1 : i < req.Params.length := by omega
    have h2 : i < h.paramsReceiver.length := by omega
    exact ⟨⟨_, List.get?_eq_get h1⟩, ⟨_, List.get?_eq_get h2⟩, by omega, by omega⟩
  · intro hc1
    omega
  · intro args res hcall
    have hl := Call_length _ _ _ hcall
    constructor
    · intro he
      rcases hwf.errOut with h1 | ⟨h0, h1⟩
      · exact absurd h1 he
      · exact idx_some _ _ h0 (by omega)
    · intro hv
      rcases hwf.valOut with h1 | ⟨h0, h1⟩
      · exact absurd h1 hv
      · exact idx_some _ _ h0 (by omega)

/-- C20, on the registry holding `*Box`: the run on `mergeRequest` panics in `Call`, which is
not an index panic, and the payload and the declared type at position 0 exist. -/
theorem index_safety_witness :
    (ServeHTTP sampleEnv boxServer bg mergeRequest none).panicked
        = some "reflect: Call using value of the wrong type" ∧
      ¬ IndexPanic "reflect: Call using value of the wrong type" ∧
      (∃ p, mergeRequest.Params.get? 0 = some p) :=
  ⟨by decide,
    (index_safety sampleEnv boxServer bg mergeRequest none
      (Reachable.regiter NewServer "box" (some boxHandler) Reachable.new)).1 _ (by decide),
    ⟨_, rfl⟩⟩

/-- C15, on the registry holding `*Calc` when `*Box` is registered under "box": the key
`calc.Add` keeps its descriptor, and the key `box.Get` maps to the descriptor built for `Get`. -/
theorem Regiter_frame_witness :
    (Regiter calcServer "box" (some boxHandler)).1.methods "calc.Add"
        = calcServer.methods "calc.Add" ∧
      ∃ m1 ∈ boxHandler.methods, m1.Name = "Get" ∧ ∃ d, describe boxHandler m1 = .ok d ∧
        (Regiter calcServer "box" (some boxHandler)).1.methods ("box" ++ "." ++ "Get")
          = some d :=
  ⟨(Regiter_frame calcServer "box" (some boxHandler)).1 "calc.Add"
      (fun h hh => by
        cases hh
        decide),
    (Regiter_frame calcServer "box" (some boxHandler)).2.1 boxHandler rfl rfl
      { Name := "Get", params := [GoType.context, GoType.int]
        outs := [GoType.int, GoType.error], body := getBody }
      (List.mem_cons_self _ _)⟩

end JsonRpc
